import Mathlib

/-
Verification of the jobify form-filling engine against its natural-language
specification.  The JavaScript source is shallowly embedded: DOM controls
become records, the field-matching and parsing routines become total Lean
functions, and the host page's reaction to synthetic events is an explicit
oracle parameter (the identity function models an inert page).
-/

set_option maxRecDepth 4000

namespace Jobify

/-! ## JavaScript string primitives -/

/-- JS whitespace (the characters the engine's inputs can contain). -/
def isWsChar (c : Char) : Bool :=
  c = ' ' || c = '\t' || c = '\n' || c = '\r'

/-- `String.prototype.trim` on a character list. -/
def jsTrimL (l : List Char) : List Char :=
  ((l.dropWhile isWsChar).reverse.dropWhile isWsChar).reverse

/-- `String.prototype.trim`.  (Implemented by structural recursion so that
concrete instances evaluate inside the kernel.) -/
def jsTrim (s : String) : String := (jsTrimL s.toList).asString

/-- `String.prototype.toLowerCase` (ASCII fragment, which is all the engine
relies on). -/
def jsLower (s : String) : String := (s.toList.map Char.toLower).asString

/-- `a.startsWith(b)`. -/
def jsStartsWith (s pre : String) : Bool := pre.toList.isPrefixOf s.toList

/-- Scan for `needle` as a contiguous run inside `haystack`. -/
def infixScan (needle : List Char) : List Char → Bool
  | [] => needle.isEmpty
  | c :: rest => needle.isPrefixOf (c :: rest) || infixScan needle rest

/-- `a.includes(b)` : `b` occurs as a contiguous substring of `a`. -/
def jsIncludes (s sub : String) : Bool := infixScan sub.toList s.toList

/-! ## Dropdown Matcher: `fillSelectSmart` (content script)

An `<option>` element carries a `value` attribute and a visible `text`.
`fillSelectSmart` receives the option list and an ordered list of candidate
values; it walks the candidates and, per candidate, the fixed eight-strategy
cascade `Try 1 .. Try 8` of the source, selecting the first option the first
successful strategy finds. -/

structure SelOption where
  value : String
  text : String
deriving DecidableEq, Repr

/-- Try 1: exact value match. -/
def stratExactValue (sl : String) (o : SelOption) : Bool :=
  jsLower o.value == sl

/-- Try 2: exact (trimmed) visible-text match. -/
def stratExactText (sl : String) (o : SelOption) : Bool :=
  jsTrim (jsLower o.text) == sl

/-- Try 3: option value starts with the candidate. -/
def stratValueStarts (sl : String) (o : SelOption) : Bool :=
  jsStartsWith (jsLower o.value) sl

/-- Try 4: option text starts with the candidate. -/
def stratTextStarts (sl : String) (o : SelOption) : Bool :=
  jsStartsWith (jsTrim (jsLower o.text)) sl

/-- Try 5: option value contains the candidate. -/
def stratValueContains (sl : String) (o : SelOption) : Bool :=
  jsIncludes (jsLower o.value) sl

/-- Try 6: option text contains the candidate (text is not trimmed here,
exactly as in the source). -/
def stratTextContains (sl : String) (o : SelOption) : Bool :=
  jsIncludes (jsLower o.text) sl

/-- Try 7: the candidate contains the option value (non-empty values only). -/
def stratSearchContainsValue (sl : String) (o : SelOption) : Bool :=
  o.value ≠ "" && jsIncludes sl (jsLower o.value)

/-- Try 8: the candidate contains the option text, for texts longer than
2 characters (length is taken on the raw text, as in the source). -/
def stratSearchContainsText (sl : String) (o : SelOption) : Bool :=
  o.text ≠ "" && o.text.length > 2 && jsIncludes sl (jsTrim (jsLower o.text))

/-- `if (!match) match = ...` : keep the earlier hit, else fall through. -/
def jsOr (a : Option SelOption) (b : Option SelOption) : Option SelOption :=
  match a with
  | some x => some x
  | none => b

/-- The cascade for one candidate, mirroring the chained
`if (!match) match = options.find(...)` blocks of the source. -/
def tryCandidate (options : List SelOption) (sl : String) : Option SelOption :=
  jsOr (options.find? (stratExactValue sl)) <|
  jsOr (options.find? (stratExactText sl)) <|
  jsOr (options.find? (stratValueStarts sl)) <|
  jsOr (options.find? (stratTextStarts sl)) <|
  jsOr (options.find? (stratValueContains sl)) <|
  jsOr (options.find? (stratTextContains sl)) <|
  jsOr (options.find? (stratSearchContainsValue sl)) <|
  (options.find? (stratSearchContainsText sl))

/-- Candidate normalisation `String(searchValue).toLowerCase().trim()`. -/
def normCandidate (v : String) : String := jsTrim (jsLower v)

/-- The candidate loop of `fillSelectSmart`. -/
def fillSelectLoop (options : List SelOption) : List String → Option SelOption
  | [] => none
  | v :: rest =>
    let sl := normCandidate v
    if sl = "" then fillSelectLoop options rest
    else
      match tryCandidate options sl with
      | some o => some o
      | none => fillSelectLoop options rest

/-- `fillSelectSmart(element, searchValues)`: `none` models `return false`
(no selection made); `some o` models selecting option `o` and returning
`true`. -/
def fillSelectSmart (options : List SelOption) (searchValues : List String) :
    Option SelOption :=
  let valuesToTry := searchValues.filter (fun v => jsTrim v ≠ "")
  if valuesToTry.isEmpty then none
  else if options.length ≤ 1 then none
  else fillSelectLoop options valuesToTry

/-! ### The cascade as the specification words it

The spec sentence behind claim C2 lists strategies (3)-(8) with the
opposite containment directions: "(3) option value is a prefix of the
candidate, (4) option text is a prefix, (5) option value is a substring of
the candidate, (6) option text is a substring, (7) candidate is a substring
of the option value, (8) candidate is a substring of option text".  The
following definitions transcribe those words (same normalisation as the
source, directions as written in the spec). -/

def specStrats (sl : String) : List (SelOption → Bool) :=
  [ stratExactValue sl,
    stratExactText sl,
    fun o => jsStartsWith sl (jsLower o.value),
    fun o => jsStartsWith sl (jsTrim (jsLower o.text)),
    fun o => jsIncludes sl (jsLower o.value),
    fun o => jsIncludes sl (jsTrim (jsLower o.text)),
    fun o => o.value ≠ "" && jsIncludes (jsLower o.value) sl,
    fun o => o.text ≠ "" && o.text.length > 2 && jsIncludes (jsTrim (jsLower o.text)) sl ]

def specTryCandidate (options : List SelOption) (sl : String) : Option SelOption :=
  (specStrats sl).findSome? (fun p => options.find? p)

def specFillSelectLoop (options : List SelOption) : List String → Option SelOption
  | [] => none
  | v :: rest =>
    let sl := normCandidate v
    if sl = "" then specFillSelectLoop options rest
    else
      match specTryCandidate options sl with
      | some o => some o
      | none => specFillSelectLoop options rest

/-- The Dropdown Matcher exactly as the spec's C2 sentence describes it. -/
def specFillSelect (options : List SelOption) (searchValues : List String) :
    Option SelOption :=
  let valuesToTry := searchValues.filter (fun v => jsTrim v ≠ "")
  if valuesToTry.isEmpty then none
  else if options.length ≤ 1 then none
  else specFillSelectLoop options valuesToTry

/-- The source's cascade, written declaratively: the first strategy in the
fixed order that has a hit, and the first option that strategy hits. -/
def codeStrats (sl : String) : List (SelOption → Bool) :=
  [ stratExactValue sl,
    stratExactText sl,
    stratValueStarts sl,
    stratTextStarts sl,
    stratValueContains sl,
    stratTextContains sl,
    stratSearchContainsValue sl,
    stratSearchContainsText sl ]

def cascadeMatch (options : List SelOption) (sl : String) : Option SelOption :=
  (codeStrats sl).findSome? (fun p => options.find? p)

/-- Result of one candidate in the declarative cascade (a candidate whose
normalised form is empty is skipped by the loop's `if (!searchLower)`). -/
def candResult (options : List SelOption) (v : String) : Option SelOption :=
  if normCandidate v = "" then none else cascadeMatch options (normCandidate v)

/-- The Dropdown Matcher, written declaratively: filter out blank
candidates, refuse degenerate selects, then return the first candidate's
first-strategy first-option hit. -/
def cascadeFillSelect (options : List SelOption) (searchValues : List String) :
    Option SelOption :=
  if (searchValues.filter (fun v => jsTrim v ≠ "")).isEmpty then none
  else if options.length ≤ 1 then none
  else (searchValues.filter (fun v => jsTrim v ≠ "")).findSome? (candResult options)

theorem tryCandidate_eq_cascadeMatch (options : List SelOption) (sl : String) :
    tryCandidate options sl = cascadeMatch options sl := by
  simp only [tryCandidate, cascadeMatch, codeStrats, List.findSome?_cons,
    List.findSome?_nil, jsOr]
  rcases options.find? (stratExactValue sl) with _ | o₁ <;>
    rcases options.find? (stratExactText sl) with _ | o₂ <;>
      rcases options.find? (stratValueStarts sl) with _ | o₃ <;>
        rcases options.find? (stratTextStarts sl) with _ | o₄ <;>
          rcases options.find? (stratValueContains sl) with _ | o₅ <;>
            rcases options.find? (stratTextContains sl) with _ | o₆ <;>
              rcases options.find? (stratSearchContainsValue sl) with _ | o₇ <;>
                rcases options.find? (stratSearchContainsText sl) with _ | o₈ <;>
                  rfl

theorem fillSelectLoop_eq_findSome (options : List SelOption) (l : List String) :
    fillSelectLoop options l = l.findSome? (candResult options) := by
  induction l with
  | nil => rfl
  | cons v rest ih =>
    simp only [fillSelectLoop, List.findSome?_cons, candResult,
      tryCandidate_eq_cascadeMatch]
    by_cases h : normCandidate v = ""
    · simp [h, ih]
    · simp only [if_neg h]
      cases cascadeMatch options (normCandidate v) <;> simp [ih]

theorem fillSelectSmart_eq_cascade (options : List SelOption)
    (searchValues : List String) :
    fillSelectSmart options searchValues = cascadeFillSelect options searchValues := by
  simp only [fillSelectSmart, cascadeFillSelect, fillSelectLoop_eq_findSome]

/-- **C2 (amended)**: the Dropdown Matcher evaluates each non-blank
candidate in order against the fixed eight-strategy cascade — with
strategies (3)-(8) in the directions the code implements: (3) the candidate
is a prefix of the option value, (4) the candidate is a prefix of the
option text, (5) the candidate is a substring of the option value, (6) the
candidate is a substring of the option text, (7) the option value is a
substring of the candidate, (8) the option text (raw length > 2) is a
substring of the candidate.  It stops at the first hit across the whole
candidate list (a hit for an earlier candidate makes later candidates
irrelevant), and it returns no selection exactly when the candidate list
filters to nothing, the select is degenerate (at most one option), or no
surviving candidate matches any option by any strategy. -/
theorem fillSelectSmart_cascade_correct :
    (∀ (options : List SelOption) (searchValues : List String),
        fillSelectSmart options searchValues = cascadeFillSelect options searchValues) ∧
    (∀ (options : List SelOption) (v : String) (rest : List String) (o : SelOption),
        jsTrim v ≠ "" → normCandidate v ≠ "" → 1 < options.length →
        cascadeMatch options (normCandidate v) = some o →
        fillSelectSmart options (v :: rest) = some o) ∧
    (∀ (options : List SelOption) (searchValues : List String),
        fillSelectSmart options searchValues = none ↔
          ((searchValues.filter (fun v => jsTrim v ≠ "")).isEmpty ∨
            options.length ≤ 1 ∨
            ∀ v ∈ searchValues.filter (fun v => jsTrim v ≠ ""),
              candResult options v = none)) := by
  refine ⟨fillSelectSmart_eq_cascade, ?_, ?_⟩
  · intro options v rest o hv hn hlen hmatch
    have hfilter :
        (v :: rest).filter (fun v => jsTrim v ≠ "") =
          v :: rest.filter (fun v => jsTrim v ≠ "") := by
      simp [List.filter_cons, hv]
    simp only [fillSelectSmart, hfilter, List.isEmpty_cons, if_false,
      Bool.false_eq_true]
    rw [if_neg (by omega)]
    simp only [fillSelectLoop, if_neg hn, tryCandidate_eq_cascadeMatch, hmatch]
  · intro options searchValues
    rw [fillSelectSmart_eq_cascade]
    unfold cascadeFillSelect
    by_cases h1 : (searchValues.filter (fun v => jsTrim v ≠ "")).isEmpty
    · rw [if_pos h1]
      exact ⟨fun _ => Or.inl h1, fun _ => rfl⟩
    · rw [if_neg h1]
      by_cases h2 : options.length ≤ 1
      · rw [if_pos h2]
        exact ⟨fun _ => Or.inr (Or.inl h2), fun _ => rfl⟩
      · rw [if_neg h2, List.findSome?_eq_none_iff]
        constructor
        · intro h
          exact Or.inr (Or.inr h)
        · rintro (h | h | h)
          · exact absurd h h1
          · exact absurd h h2
          · exact h

/-- Witness for C2: a concrete select on which the amended theorem's
first-hit clause applies. -/
theorem fillSelectSmart_cascade_correct_witness :
    fillSelectSmart [⟨"us", "United States"⟩, ⟨"ca", "Canada"⟩] ["us", "x"] =
      some ⟨"us", "United States"⟩ :=
  fillSelectSmart_cascade_correct.2.1
    [⟨"us", "United States"⟩, ⟨"ca", "Canada"⟩] "us" ["x"]
    ⟨"us", "United States"⟩ (by decide) (by decide) (by decide) (by decide)

/-- **C2, counterexample**: on the select with options `(value "zab")` and
`(value "abz")` and the single candidate `"ab"`, the engine's Try 3 (option
value *starts with* the candidate) selects `"abz"`, while the cascade as
the claim words it ("option value is a prefix of the candidate", etc.)
selects `"zab"` via its strategy (7).  The claim's strategy directions
(3)-(8) do not describe the code. -/
theorem fillSelectSmart_spec_cascade_counterexample :
    fillSelectSmart [⟨"zab", "one"⟩, ⟨"abz", "two"⟩] ["ab"] = some ⟨"abz", "two"⟩ ∧
    specFillSelect [⟨"zab", "one"⟩, ⟨"abz", "two"⟩] ["ab"] = some ⟨"zab", "one"⟩ ∧
    (⟨"abz", "two"⟩ : SelOption) ≠ ⟨"zab", "one"⟩ :=
  ⟨by decide, by decide, by decide⟩

/-! ## Value Writer: `fillTextSmart` (content script)

`fillTextSmart(element, value)` focuses the control, writes the trimmed
value through the native setter and replays the input/composition/keyboard/
change notification sequence.  Reactive host pages run their own handlers
on those synthetic events and may rewrite the control's value; the `react`
oracle models that reaction (the value the control holds once the handlers
have run).  `react = id` is an inert page.  The result is the pair
(returned boolean, control value afterwards). -/

def fillTextSmart (elValue : String) (isSelect : Bool) (value : String)
    (react : String → String) : Bool × String :=
  if value = "" then (false, elValue)
  else if isSelect then (false, elValue)
  else if elValue ≠ "" && elValue.length > 10 then (false, elValue)
  else
    let valueStr := jsTrim value
    if valueStr = "" then (false, elValue)
    else
      let newVal := react valueStr
      ((newVal == valueStr) || (newVal.length > 0), newVal)

/-! ## A small matcher for the source's regular expressions

The classifier's regexes are alternations of word-bounded literal runs with
optional `\s*` gaps and digit classes.  A pattern is a list of items, an
alternation a list of patterns (tried in order, leftmost match first, as
the JS engine does); `\b` anchors at both ends are checked from the
wordness of the characters adjacent to the match. -/

def isWordChar (c : Char) : Bool :=
  ('a' ≤ c && c ≤ 'z') || ('A' ≤ c && c ≤ 'Z') || ('0' ≤ c && c ≤ '9') || c = '_'

inductive PItem where
  | word (w : String)
  | ws
  | range (lo hi : Char)

/-- Match a pattern against the head of `s`; `some r` is the unconsumed
remainder.  `\s*` is greedy, which coincides with the JS engine on these
patterns because every `\s*` is followed by a non-space literal. -/
def itemMatch : List PItem → List Char → Option (List Char)
  | [], s => some s
  | .word w :: rest, s =>
    if w.toList.isPrefixOf s then itemMatch rest (s.drop w.length) else none
  | .ws :: rest, s => itemMatch rest (s.dropWhile isWsChar)
  | .range lo hi :: rest, s =>
    match s with
    | [] => none
    | c :: cs => if lo ≤ c && c ≤ hi then itemMatch rest cs else none

/-- `\b` before the match: wordness must change across the left edge. -/
def headBoundaryOk (prev : Option Char) (s : List Char) : Bool :=
  match s with
  | [] => true
  | c :: _ => (match prev with | none => false | some p => isWordChar p) != isWordChar c

/-- `\b` after the match: wordness must change across the right edge. -/
def tailBoundaryOk (lastC : Option Char) (r : List Char) : Bool :=
  match lastC with
  | none => true
  | some c =>
    match r with
    | [] => isWordChar c
    | d :: _ => isWordChar c != isWordChar d

/-- Try every alternative at the current position, in order. -/
def tryAltsAt (bounded : Bool) (alts : List (List PItem)) (prev : Option Char)
    (s : List Char) : Option (List Char) :=
  match alts with
  | [] => none
  | alt :: more =>
    match itemMatch alt s with
    | some r =>
      let consumed := s.take (s.length - r.length)
      if (!bounded || (headBoundaryOk prev s && tailBoundaryOk consumed.getLast? r)) then
        some consumed
      else tryAltsAt bounded more prev s
    | none => tryAltsAt bounded more prev s

/-- Leftmost match: slide over the subject one character at a time. -/
def scanPat (bounded : Bool) (alts : List (List PItem)) :
    Option Char → List Char → Option (List Char)
  | prev, [] => tryAltsAt bounded alts prev []
  | prev, c :: rest =>
    match tryAltsAt bounded alts prev (c :: rest) with
    | some m => some m
    | none => scanPat bounded alts (some c) rest

/-- `re.test(s)` for a word-bounded alternation. -/
def reTest (alts : List (List PItem)) (s : String) : Bool :=
  (scanPat true alts none s.toList).isSome

/-- `s.match(re)[0]` for a word-bounded alternation. -/
def reFirst (alts : List (List PItem)) (s : String) : Option String :=
  (scanPat true alts none s.toList).map List.asString

/-- `s.match(re)[0]` for an unanchored alternation (no `\b`). -/
def reFirstRaw (alts : List (List PItem)) (s : String) : Option String :=
  (scanPat false alts none s.toList).map List.asString

/-! ## Field Classifier: the identity-field disambiguation of `handleAutofill`

The fragment of the per-control loop that decides what, if anything, to do
with a control whose textual context concerns a *name* (content script,
"INTELLIGENT NAME FIELD CLASSIFICATION").  `context` is the lowercased
combined context string, `ancestorContext` the lowercased concatenation of
up to five ancestors' class/id/data tokens, `inDynamicSection` the result
of the `closest(...)` section probe; `hasFirst`/`hasLast`/`hasFull` say
whether the profile provides `firstName`/`lastName`/`name`. -/

/-- `/\bname\b/` -/
def nameWordPat : List (List PItem) := [[.word "name"]]

/-- `/\bfirst\s*name\b/`, `/\bgiven\s*name\(s\)\b/`, `/\bfname\b/`,
`/\bfirstname\b/` -/
def firstNamePats : List (List PItem) :=
  [[.word "first", .ws, .word "name"], [.word "given", .ws, .word "name(s)"],
   [.word "fname"], [.word "firstname"]]

/-- `/\b(last|family|sur)\b/` -/
def antiLastPats : List (List PItem) :=
  [[.word "last"], [.word "family"], [.word "sur"]]

/-- `/\blast\s*name\b/`, `/\bfamily\s*name\b/`, `/\bsurname\b/`,
`/\blname\b/`, `/\blastname\b/` -/
def lastNamePats : List (List PItem) :=
  [[.word "last", .ws, .word "name"], [.word "family", .ws, .word "name"],
   [.word "surname"], [.word "lname"], [.word "lastname"]]

/-- `/\b(first|given)\b/` -/
def antiFirstPats : List (List PItem) :=
  [[.word "first"], [.word "given"]]

/-- `/\b(full\s*name|complete\s*name|legal\s*name|your\s*name|applicant\s*name|candidate\s*name)\b/` -/
def fullNamePats : List (List PItem) :=
  [[.word "full", .ws, .word "name"], [.word "complete", .ws, .word "name"],
   [.word "legal", .ws, .word "name"], [.word "your", .ws, .word "name"],
   [.word "applicant", .ws, .word "name"], [.word "candidate", .ws, .word "name"]]

/-- `/\b(company|employer|organization|business|project|school|university|college|institution|degree|course|program|local)\b/` -/
def nonPersonalPats : List (List PItem) :=
  [[.word "company"], [.word "employer"], [.word "organization"],
   [.word "business"], [.word "project"], [.word "school"],
   [.word "university"], [.word "college"], [.word "institution"],
   [.word "degree"], [.word "course"], [.word "program"], [.word "local"]]

inductive NameDecision where
  | skipDynamicSection
  | skipNonPersonal
  | writeFirst
  | writeLast
  | writeFull
  | aiFallback
  | notNameField
deriving DecidableEq, Repr

/-- The classifier has found no confidently classified name to write: a
context that still matches `/\bname\b/` goes to the generation fallback
(and is skipped if that yields nothing); anything else falls through to
the non-name branches. -/
def bareNameOutcome (hasWordName : Bool) : NameDecision :=
  if hasWordName then .aiFallback else .notNameField

/-- The branch structure of the name-classification fragment, over the
truth values of its regex tests: `gGuard` is the dynamic-section guard
(`(inDynamicSection || inProjectSection || inExperienceSection ||
inEducationSection) && /\bname\b/`), the rest are the tests named in
`nameFieldDecision` below. -/
def nameDecisionCore (gGuard bNP bFirst bAntiLast bLast bAntiFirst bFull
    bWordName hasFirst hasLast hasFull : Bool) : NameDecision :=
  if gGuard then .skipDynamicSection
  else if bNP then .skipNonPersonal
  else if bFirst then
    if !bAntiLast then
      if hasFirst then .writeFirst else bareNameOutcome bWordName
    else bareNameOutcome bWordName
  else if bLast then
    if !bAntiFirst then
      if hasLast then .writeLast else bareNameOutcome bWordName
    else bareNameOutcome bWordName
  else if bFull then
    if hasFull then .writeFull else bareNameOutcome bWordName
  else bareNameOutcome bWordName

/-- The name-classification fragment of `handleAutofill`. -/
def nameFieldDecision (context ancestorContext : String)
    (inDynamicSection hasFirst hasLast hasFull : Bool) : NameDecision :=
  let inProjectSection := jsIncludes ancestorContext "project" || inDynamicSection
  let inExperienceSection := jsIncludes ancestorContext "experience" ||
    jsIncludes ancestorContext "work" || jsIncludes ancestorContext "employment"
  let inEducationSection := jsIncludes ancestorContext "education" ||
    jsIncludes ancestorContext "school"
  nameDecisionCore
    ((inDynamicSection || inProjectSection || inExperienceSection || inEducationSection) &&
      reTest nameWordPat context)
    (reTest nonPersonalPats context)
    (reTest firstNamePats context)
    (reTest antiLastPats context)
    (reTest lastNamePats context)
    (reTest antiFirstPats context)
    (reTest fullNamePats context)
    (reTest nameWordPat context)
    hasFirst hasLast hasFull

/-- The claim's qualifier list for writing the full name: one of
"full", "complete", "legal", "applicant", "candidate" present as a word. -/
def claimFullQualifierPats : List (List PItem) :=
  [[.word "full"], [.word "complete"], [.word "legal"],
   [.word "applicant"], [.word "candidate"]]

/-- **C1 (amended)**: identity-field disambiguation.  The filler writes the
profile's first name only into a context matching a first/given-name
pattern with no last/family/sur word; the last name only into a context
matching a last/family/surname pattern with no first/given word; the full
name only when one of the qualifiers "full", "complete", "legal", *"your"*,
"applicant", "candidate" precedes "name".  A control inside a
work/education/project section is skipped when its context contains "name"
*as a whole word* (contexts such as `fname`/`firstname`, which match the
claim's `/name/` only as a substring, are still classified); a context
mentioning a non-personal entity is skipped; and a word-"name" context that
cannot be disambiguated is never given a profile name value (it goes to
the generation fallback or is left alone). -/
theorem nameField_disambiguation :
    (∀ (context ancestorContext : String) (dyn hF hL hFu : Bool),
        nameFieldDecision context ancestorContext dyn hF hL hFu = .writeFirst →
        reTest firstNamePats context = true ∧ reTest antiLastPats context = false) ∧
    (∀ (context ancestorContext : String) (dyn hF hL hFu : Bool),
        nameFieldDecision context ancestorContext dyn hF hL hFu = .writeLast →
        reTest lastNamePats context = true ∧ reTest antiFirstPats context = false) ∧
    (∀ (context ancestorContext : String) (dyn hF hL hFu : Bool),
        nameFieldDecision context ancestorContext dyn hF hL hFu = .writeFull →
        reTest fullNamePats context = true) ∧
    (∀ (context ancestorContext : String) (dyn hF hL hFu : Bool),
        (dyn || jsIncludes ancestorContext "project" ||
         jsIncludes ancestorContext "experience" || jsIncludes ancestorContext "work" ||
         jsIncludes ancestorContext "employment" || jsIncludes ancestorContext "education" ||
         jsIncludes ancestorContext "school") = true →
        reTest nameWordPat context = true →
        nameFieldDecision context ancestorContext dyn hF hL hFu = .skipDynamicSection) ∧
    (∀ (context ancestorContext : String) (dyn hF hL hFu : Bool),
        reTest nonPersonalPats context = true →
        nameFieldDecision context ancestorContext dyn hF hL hFu = .skipDynamicSection ∨
        nameFieldDecision context ancestorContext dyn hF hL hFu = .skipNonPersonal) ∧
    (∀ (context ancestorContext : String) (dyn hF hL hFu : Bool),
        reTest nameWordPat context = true →
        reTest firstNamePats context = false →
        reTest lastNamePats context = false →
        reTest fullNamePats context = false →
        nameFieldDecision context ancestorContext dyn hF hL hFu = .skipDynamicSection ∨
        nameFieldDecision context ancestorContext dyn hF hL hFu = .skipNonPersonal ∨
        nameFieldDecision context ancestorContext dyn hF hL hFu = .aiFallback) := by
  have core1 : ∀ g np f al l af fu nm hF hL hFu : Bool,
      nameDecisionCore g np f al l af fu nm hF hL hFu = .writeFirst →
      f = true ∧ al = false := by decide
  have core2 : ∀ g np f al l af fu nm hF hL hFu : Bool,
      nameDecisionCore g np f al l af fu nm hF hL hFu = .writeLast →
      l = true ∧ af = false := by decide
  have core3 : ∀ g np f al l af fu nm hF hL hFu : Bool,
      nameDecisionCore g np f al l af fu nm hF hL hFu = .writeFull →
      fu = true := by decide
  have core4 : ∀ g np f al l af fu nm hF hL hFu : Bool, g = true →
      nameDecisionCore g np f al l af fu nm hF hL hFu = .skipDynamicSection := by
    decide
  have core5 : ∀ g np f al l af fu nm hF hL hFu : Bool, np = true →
      nameDecisionCore g np f al l af fu nm hF hL hFu = .skipDynamicSection ∨
      nameDecisionCore g np f al l af fu nm hF hL hFu = .skipNonPersonal := by
    decide
  have core6 : ∀ g np f al l af fu nm hF hL hFu : Bool,
      nm = true → f = false → l = false → fu = false →
      nameDecisionCore g np f al l af fu nm hF hL hFu = .skipDynamicSection ∨
      nameDecisionCore g np f al l af fu nm hF hL hFu = .skipNonPersonal ∨
      nameDecisionCore g np f al l af fu nm hF hL hFu = .aiFallback := by
    decide
  refine ⟨?_, ?_, ?_, ?_, ?_, ?_⟩
  · intro context anc dyn hF hL hFu h
    exact core1 _ _ _ _ _ _ _ _ _ _ _ h
  · intro context anc dyn hF hL hFu h
    exact core2 _ _ _ _ _ _ _ _ _ _ _ h
  · intro context anc dyn hF hL hFu h
    exact core3 _ _ _ _ _ _ _ _ _ _ _ h
  · intro context anc dyn hF hL hFu hg hn
    have hcond :
        ((dyn || (jsIncludes anc "project" || dyn) ||
          (jsIncludes anc "experience" || jsIncludes anc "work" ||
            jsIncludes anc "employment") ||
          (jsIncludes anc "education" || jsIncludes anc "school")) &&
          reTest nameWordPat context) = true := by
      simp only [Bool.or_eq_true] at hg
      simp only [Bool.and_eq_true, Bool.or_eq_true, hn, and_true]
      tauto
    exact core4 _ _ _ _ _ _ _ _ _ _ _ hcond
  · intro context anc dyn hF hL hFu hnp
    exact core5 _ _ _ _ _ _ _ _ _ _ _ hnp
  · intro context anc dyn hF hL hFu hn h1 h2 h3
    exact core6 _ _ _ _ _ _ _ _ _ _ _ hn h1 h2 h3

/-- Witness for C1: a "First Name" control inside a project section is
skipped by the dynamic-section guard. -/
theorem nameField_disambiguation_witness :
    nameFieldDecision "first name" "project-row" false true true true =
      .skipDynamicSection :=
  nameField_disambiguation.2.2.2.1 "first name" "project-row" false true true true
    (by decide) (by decide)

/-- **C1, counterexample**: (a) the context "your name" carries none of the
claim's full-name qualifiers (full/complete/legal/applicant/candidate) yet
the code writes the profile's full name into it; (b) a control whose
context is `fname` (which matches the claim's `/name/`) sitting inside a
work-experience section is *not* suppressed — the code writes the
profile's first name into it. -/
theorem nameField_disambiguation_counterexample :
    (nameFieldDecision "your name" "" false true true true = .writeFull ∧
      reTest claimFullQualifierPats "your name" = false) ∧
    (nameFieldDecision "fname" "experience-block" false true true true = .writeFirst ∧
      jsIncludes "fname" "name" = true) :=
  ⟨⟨by decide, by decide⟩, ⟨by decide, by decide⟩⟩

/-! ## Value Writer: `simpleFieldFill` (content script)

A form control as the filling routines see it.  `label` is the text the
Signal Collector (`getFieldLabel`) resolves for the control; `fid` stands
for the element's object identity.  `maxLength` is `-1` when the attribute
is absent, as in the DOM. -/

structure WField where
  fid : Nat
  tag : String
  ftype : String
  id : String
  name : String
  label : String
  placeholder : String
  ariaLabel : String
  required : Bool
  maxLength : Int
  value : String
  options : List SelOption
deriving DecidableEq, Repr

def digitItem : PItem := .range '0' '9'

/-- `/\b(19|20)\d{2}\b/` -/
def yearNumPat : List (List PItem) :=
  [[.word "19", digitItem, digitItem], [.word "20", digitItem, digitItem]]

/-- `/\b(0?[1-9]|1[0-2])\b/` (alternatives in the engine's backtracking
order). -/
def monthNumPat : List (List PItem) :=
  [[.word "0", .range '1' '9'], [.range '1' '9'], [.word "1", .range '0' '2']]

/-- `/\b(0?[1-9]|[12][0-9]|3[01])\b/` -/
def dayNumPat : List (List PItem) :=
  [[.word "0", .range '1' '9'], [.range '1' '9'],
   [.range '1' '2', .range '0' '9'], [.word "3", .range '0' '1']]

def monthNames : List String :=
  ["january", "february", "march", "april", "may", "june",
   "july", "august", "september", "october", "november", "december"]

/-- `/\b(january|...|december)\b/i` (tested against the lowercased value). -/
def monthNamePat : List (List PItem) := monthNames.map (fun m => [.word m])

/-- `/(\d{4})-(\d{2})-(\d{2})/` (no word boundaries). -/
def dateFullPat : List (List PItem) :=
  [[digitItem, digitItem, digitItem, digitItem, .word "-",
    digitItem, digitItem, .word "-", digitItem, digitItem]]

/-- `String.prototype.padStart(2, '0')`. -/
def padStart2 (s : String) : String := if s.length < 2 then "0" ++ s else s

/-- The date/month normalisation of `simpleFieldFill`: `YYYY-MM` for month
controls, `YYYY-MM-DD` for date controls, defaulting to the first of the
period; the value is passed through unchanged when no 4-digit year is
found. -/
def formatDateValue (ftype : String) (valueStr : String) : String :=
  let yearMatch := reFirst yearNumPat valueStr
  let monthMatch := reFirst monthNumPat valueStr
  let monthNameMatch := reFirst monthNamePat (jsLower valueStr)
  if ftype = "month" then
    match yearMatch with
    | some y =>
      let month :=
        match monthMatch with
        | some m => padStart2 m
        | none =>
          match monthNameMatch with
          | some mn => padStart2 (toString ((monthNames.indexOf mn) + 1))
          | none => "01"
      y ++ "-" ++ month
    | none => valueStr
  else
    match reFirstRaw dateFullPat valueStr with
    | some _ => valueStr
    | none =>
      match yearMatch with
      | some y =>
        let month := match monthMatch with | some m => padStart2 m | none => "01"
        y ++ "-" ++ month ++ "-01"
      | none => valueStr

/-- The "SMART VALUE EXTRACTION" of `simpleFieldFill`'s text path: a field
whose id/name/label context says year (and not range/to/from), month (and
not year) or day gets only the matching component of the value. -/
def smartExtract (field : WField) (valueStr : String) : String :=
  let ctx := jsLower field.id ++ " " ++ jsLower field.name ++ " " ++ jsLower field.label
  if reTest [[.word "year"]] ctx &&
      !reTest [[.word "range"], [.word "to"], [.word "from"]] ctx then
    match reFirst yearNumPat valueStr with
    | some y => y
    | none => valueStr
  else if reTest [[.word "month"]] ctx && !reTest [[.word "year"]] ctx then
    match reFirst monthNumPat valueStr with
    | some m => padStart2 m
    | none => valueStr
  else if reTest [[.word "day"]] ctx then
    match reFirst dayNumPat valueStr with
    | some d => padStart2 d
    | none => valueStr
  else valueStr

/-- The 3-way option matcher of `simpleFieldFill`'s select path. -/
def simpleSelectMatch (options : List SelOption) (valueStr : String) :
    Option SelOption :=
  options.find? (fun o =>
    jsIncludes (jsLower o.text) (jsLower valueStr) ||
    jsIncludes (jsLower o.value) (jsLower valueStr) ||
    jsIncludes (jsLower valueStr) (jsLower o.text))

/-- `simpleFieldFill(field, value)`.  `react1`/`react2` are the host page's
reactions to the first write and to the fallback write (`id` for an inert
page); the result is (returned boolean, field afterwards). -/
def simpleFieldFill (field : WField) (value : String)
    (react1 react2 : String → String) : Bool × WField :=
  if value = "" then (false, field)
  else
    let valueStr := jsTrim value
    if valueStr = "" then (false, field)
    else if field.tag = "SELECT" then
      match simpleSelectMatch field.options valueStr with
      | some m => (true, { field with value := m.value })
      | none => (false, field)
    else if field.ftype = "date" || field.ftype = "month" then
      let formattedDate := formatDateValue field.ftype valueStr
      let v1 := react1 formattedDate
      (v1 == formattedDate, { field with value := v1 })
    else
      let smartValue := smartExtract field valueStr
      let v1 := react1 smartValue
      if v1 ≠ "" && jsTrim v1 == jsTrim smartValue then
        (true, { field with value := v1 })
      else
        let v2 := react2 smartValue
        (v2 ≠ "" && jsTrim v2 == jsTrim smartValue, { field with value := v2 })

/-- **C3 (amended)**: what "reported success" guarantees.  For the
singleton text filler `fillTextSmart`, success only guarantees that the
control's value is *non-empty* (its verification is `value === written ||
value.length > 0`); the value does equal the trimmed written value whenever
the page leaves the write alone (`react = id`).  The repeating-section text
filler `simpleFieldFill` does guarantee the claim's postcondition: success
implies the control's value equals the written value up to the documented
normalization (smart extraction plus trimming on the text path, date/month
formatting — with exact equality — on the date path). -/
theorem valueWriter_postcondition :
    (∀ (elValue value : String) (react : String → String),
        (fillTextSmart elValue false value react).1 = true →
        (fillTextSmart elValue false value react).2 ≠ "") ∧
    (∀ (elValue value : String),
        (fillTextSmart elValue false value id).1 = true →
        (fillTextSmart elValue false value id).2 = jsTrim value) ∧
    (∀ (field : WField) (value : String) (react1 react2 : String → String),
        field.tag ≠ "SELECT" → field.ftype ≠ "date" → field.ftype ≠ "month" →
        (simpleFieldFill field value react1 react2).1 = true →
        jsTrim (simpleFieldFill field value react1 react2).2.value =
            jsTrim (smartExtract field (jsTrim value)) ∧
          (simpleFieldFill field value react1 react2).2.value ≠ "") ∧
    (∀ (field : WField) (value : String) (react1 react2 : String → String),
        field.tag ≠ "SELECT" → (field.ftype = "date" ∨ field.ftype = "month") →
        (simpleFieldFill field value react1 react2).1 = true →
        (simpleFieldFill field value react1 react2).2.value =
          formatDateValue field.ftype (jsTrim value)) := by
  refine ⟨?_, ?_, ?_, ?_⟩
  · intro elValue value react h
    simp only [fillTextSmart] at h ⊢
    by_cases h1 : value = ""
    · rw [if_pos h1] at h
      simp at h
    rw [if_neg h1, if_neg Bool.false_ne_true] at h ⊢
    by_cases h3 : (decide (elValue ≠ "") && decide (elValue.length > 10)) = true
    · rw [if_pos h3] at h
      simp at h
    rw [if_neg h3] at h ⊢
    by_cases h4 : jsTrim value = ""
    · rw [if_pos h4] at h
      simp at h
    rw [if_neg h4] at h ⊢
    simp only [Bool.or_eq_true, beq_iff_eq, decide_eq_true_eq] at h
    rcases h with h | h
    · show react (jsTrim value) ≠ ""
      rw [h]
      exact h4
    · show react (jsTrim value) ≠ ""
      intro hEq
      rw [hEq] at h
      simp at h
  · intro elValue value h
    simp only [fillTextSmart, id] at h ⊢
    by_cases h1 : value = ""
    · rw [if_pos h1] at h
      simp at h
    rw [if_neg h1, if_neg Bool.false_ne_true] at h ⊢
    by_cases h3 : (decide (elValue ≠ "") && decide (elValue.length > 10)) = true
    · rw [if_pos h3] at h
      simp at h
    rw [if_neg h3] at h ⊢
    by_cases h4 : jsTrim value = ""
    · rw [if_pos h4] at h
      simp at h
    rw [if_neg h4] at h ⊢
  · intro field value react1 react2 ht hd hm h
    simp only [simpleFieldFill] at h ⊢
    by_cases h1 : value = ""
    · rw [if_pos h1] at h
      simp at h
    rw [if_neg h1] at h ⊢
    by_cases h2 : jsTrim value = ""
    · rw [if_pos h2] at h
      simp at h
    rw [if_neg h2] at h ⊢
    rw [if_neg ht] at h ⊢
    have hdm : ¬((decide (field.ftype = "date") || decide (field.ftype = "month")) = true) := by
      simp [hd, hm]
    rw [if_neg hdm] at h ⊢
    by_cases h5 :
        (decide (react1 (smartExtract field (jsTrim value)) ≠ "") &&
          (jsTrim (react1 (smartExtract field (jsTrim value))) ==
            jsTrim (smartExtract field (jsTrim value)))) = true
    · rw [if_pos h5]
      simp only [Bool.and_eq_true, beq_iff_eq, decide_eq_true_eq] at h5
      exact ⟨h5.2, h5.1⟩
    · rw [if_neg h5] at h ⊢
      simp only [Prod.fst, Bool.and_eq_true, beq_iff_eq, decide_eq_true_eq] at h
      exact ⟨h.2, h.1⟩
  · intro field value react1 react2 ht hdm h
    simp only [simpleFieldFill] at h ⊢
    by_cases h1 : value = ""
    · rw [if_pos h1] at h
      simp at h
    rw [if_neg h1] at h ⊢
    by_cases h2 : jsTrim value = ""
    · rw [if_pos h2] at h
      simp at h
    rw [if_neg h2] at h ⊢
    rw [if_neg ht] at h ⊢
    have hg : ((decide (field.ftype = "date") || decide (field.ftype = "month")) = true) := by
      rcases hdm with hx | hx <;> simp [hx]
    rw [if_pos hg] at h ⊢
    simp only [Prod.fst, beq_iff_eq] at h
    exact h

/-- Witness for C3: on an inert page, writing "Ada" into an empty text
control succeeds and leaves exactly "Ada" in it. -/
theorem valueWriter_postcondition_witness :
    (fillTextSmart "" false " Ada " id).2 = jsTrim " Ada " :=
  valueWriter_postcondition.2.1 "" " Ada " (by decide)

/-- **C3, counterexample**: a page whose handlers rewrite the control to
"x" after the synthetic events (modelled by `react`) makes `fillTextSmart`
report success — its verification accepts *any* non-empty value — although
the control's value does not equal the written value. -/
theorem valueWriter_postcondition_counterexample :
    (fillTextSmart "" false "John" (fun _ => "x")).1 = true ∧
    (fillTextSmart "" false "John" (fun _ => "x")).2 ≠ jsTrim "John" ∧
    (fillTextSmart "" false "John" (fun _ => "x")).2 ≠ "John" :=
  ⟨by decide, by decide, by decide⟩

/-- **C10**: the implicit no-overwrite guard of `fillTextSmart`.  Any text
or textarea control whose current value is longer than 10 characters is
left untouched and the call reports failure, for every written value and
every page reaction; a shorter non-empty current value can be overwritten
(second conjunct exhibits the boundary: a 10-character value is replaced). -/
theorem fillTextSmart_no_overwrite :
    (∀ (elValue value : String) (react : String → String),
        10 < elValue.length →
        fillTextSmart elValue false value react = (false, elValue)) ∧
    (∃ (elValue value : String),
        elValue ≠ "" ∧ elValue.length ≤ 10 ∧
        fillTextSmart elValue false value id = (true, jsTrim value) ∧
        jsTrim value ≠ elValue) := by
  constructor
  · intro elValue value react hlen
    have hne : elValue ≠ "" := by
      intro hEq
      rw [hEq] at hlen
      simp at hlen
    simp only [fillTextSmart]
    by_cases h1 : value = ""
    · rw [if_pos h1]
    · rw [if_neg h1, if_neg Bool.false_ne_true]
      have hg : (decide (elValue ≠ "") && decide (elValue.length > 10)) = true := by
        simp [hne, hlen]
      rw [if_pos hg]
  · exact ⟨"0123456789", "Ada", by decide, by decide, by decide, by decide⟩

/-- Witness for C10: an 11-character value blocks the write. -/
theorem fillTextSmart_no_overwrite_witness :
    fillTextSmart "01234567890" false "Ada" id = (false, "01234567890") :=
  fillTextSmart_no_overwrite.1 "01234567890" "Ada" id (by decide)

/-! ## EEO branches of `handleAutofill`

The gender / disability / veteran / ethnicity branches build a candidate
list from the profile value (or a default when it is blank) and hand it to
`fillSelectSmart`.  Each `...Branch` function returns the selected option. -/

/-- `s.charAt(0).toUpperCase() + s.slice(1).toLowerCase()` -/
def jsCapFirst (s : String) : String :=
  match s.toList with
  | [] => ""
  | c :: rest => (c.toUpper :: rest.map Char.toLower).asString

/-- `String.prototype.toUpperCase` (ASCII fragment). -/
def jsUpper (s : String) : String := (s.toList.map Char.toUpper).asString

def genderVariants (g : String) : List String :=
  let lowerGender := jsLower g
  [g, jsCapFirst g, jsLower g, jsUpper g] ++
  (if jsIncludes lowerGender "male" && !jsIncludes lowerGender "female" then
    ["Male", "male", "MALE", "M", "m"]
  else if jsIncludes lowerGender "female" then
    ["Female", "female", "FEMALE", "F", "f"]
  else if jsIncludes lowerGender "non-binary" || jsIncludes lowerGender "nonbinary" then
    ["Non-binary", "Nonbinary", "non-binary", "nonbinary", "Other", "other"]
  else if jsIncludes lowerGender "prefer" then
    ["Prefer not to say", "Prefer not to answer", "Decline to self identify"]
  else [])

/-- The gender default used when the profile leaves the field blank. -/
def genderDefaultCandidates : List String :=
  ["Prefer not to say", "Decline to self identify"]

def genderBranch (g : String) (options : List SelOption) : Option SelOption :=
  if g ≠ "" then fillSelectSmart options (genderVariants g)
  else fillSelectSmart options genderDefaultCandidates

def disabilityVariants (d : String) : List String :=
  if d ≠ "" then
    [d] ++
    (let disLower := jsLower d
    if jsIncludes disLower "no" || jsIncludes disLower "not" then
      ["No", "No, I do not have a disability", "I do not have a disability", "None"]
    else if jsIncludes disLower "yes" then
      ["Yes", "Yes, I have a disability", "I have a disability"]
    else if jsIncludes disLower "prefer" then
      ["I don\x27t wish to answer", "Prefer not to say", "Decline to self identify"]
    else [])
  else ["I don\x27t wish to answer", "Prefer not to say", "Decline to self identify"]

def disabilityBranch (d : String) (options : List SelOption) : Option SelOption :=
  fillSelectSmart options (disabilityVariants d)

def veteranVariants (v : String) : List String :=
  if v ≠ "" then
    [v] ++
    (let vetLower := jsLower v
    if jsIncludes vetLower "no" || jsIncludes vetLower "not" then
      ["I am not a protected veteran", "No", "Not a veteran", "I am not a veteran"]
    else if jsIncludes vetLower "yes" then
      ["I am a protected veteran", "Yes", "Protected veteran"]
    else if jsIncludes vetLower "prefer" then
      ["I don\x27t wish to answer", "Prefer not to say", "Decline to self identify"]
    else [])
  else
    ["I am not a protected veteran", "I don\x27t wish to answer", "No", "Not a veteran"]

def veteranBranch (v : String) (options : List SelOption) : Option SelOption :=
  fillSelectSmart options (veteranVariants v)

def ethnicityVariants (e : String) : List String :=
  if e ≠ "" then
    [e] ++
    (if jsIncludes (jsLower e) "prefer" then
      ["Prefer not to say", "I don\x27t wish to answer", "Decline to self identify"]
    else [])
  else ["Prefer not to say", "I don\x27t wish to answer", "Decline to self identify"]

def ethnicityBranch (e : String) (options : List SelOption) : Option SelOption :=
  fillSelectSmart options (ethnicityVariants e)

/-- The spec's "prefer not to answer" synonym set (normalised). -/
def preferNotToAnswerSet : List String :=
  ["prefer not to say", "prefer not to answer", "decline to self identify",
   "i don\x27t wish to answer", "i do not wish to answer"]

def isPreferNotToAnswer (s : String) : Bool :=
  preferNotToAnswerSet.contains (jsTrim (jsLower s))

theorem cascadeMatch_ne_none_of_exactText (options : List SelOption) (sl : String)
    (h : ∃ o ∈ options, stratExactText sl o = true) :
    cascadeMatch options sl ≠ none := by
  intro hnone
  rw [cascadeMatch, List.findSome?_eq_none_iff] at hnone
  obtain ⟨o, ho, hs⟩ := h
  have h2 := hnone (stratExactText sl) (by simp [codeStrats])
  rw [List.find?_eq_none] at h2
  exact h2 o ho hs

theorem fillSelectSmart_ne_none_of_hit (options : List SelOption)
    (cands : List String) (v : String) (hv : v ∈ cands) (ht : jsTrim v ≠ "")
    (hn : normCandidate v ≠ "") (hl : 1 < options.length)
    (hm : cascadeMatch options (normCandidate v) ≠ none) :
    fillSelectSmart options cands ≠ none := by
  rw [fillSelectSmart_eq_cascade]
  unfold cascadeFillSelect
  have hmem : v ∈ cands.filter (fun v => jsTrim v ≠ "") :=
    List.mem_filter.mpr ⟨hv, by simpa using ht⟩
  have hni : ¬((cands.filter (fun v => jsTrim v ≠ "")).isEmpty = true) := by
    intro habs
    rw [List.isEmpty_iff] at habs
    rw [habs] at hmem
    simp at hmem
  rw [if_neg hni, if_neg (by omega)]
  intro hnone
  rw [List.findSome?_eq_none_iff] at hnone
  have := hnone v hmem
  rw [candResult, if_neg hn] at this
  exact hm this

/-- **C4 (amended)**: EEO defaults for blank profile fields.  Gender,
disability and ethnicity default to candidate lists drawn entirely from a
"prefer not to answer" synonym set; the *veteran* field instead defaults to
a list headed by the substantive answer "I am not a protected veteran"
(with decline-to-answer synonyms and "No"/"Not a veteran" after it).  In
all four cases the default list is non-empty and a selection is attempted
— the control is never silently left unfilled — and on any real select
(more than one option) offering the matching option text, a selection is
in fact made. -/
theorem eeoDefaults_policy :
    (genderDefaultCandidates.all isPreferNotToAnswer = true ∧
      (disabilityVariants "").all isPreferNotToAnswer = true ∧
      (ethnicityVariants "").all isPreferNotToAnswer = true) ∧
    (veteranVariants "" =
        ["I am not a protected veteran", "I don\x27t wish to answer", "No",
          "Not a veteran"] ∧
      isPreferNotToAnswer "I am not a protected veteran" = false ∧
      (veteranVariants "").any isPreferNotToAnswer = true) ∧
    (genderDefaultCandidates ≠ [] ∧ disabilityVariants "" ≠ [] ∧
      veteranVariants "" ≠ [] ∧ ethnicityVariants "" ≠ []) ∧
    (∀ options : List SelOption, 1 < options.length →
      (∃ o ∈ options, jsTrim (jsLower o.text) = "prefer not to say") →
      genderBranch "" options ≠ none ∧ disabilityBranch "" options ≠ none ∧
        ethnicityBranch "" options ≠ none) ∧
    (∀ options : List SelOption, 1 < options.length →
      (∃ o ∈ options, jsTrim (jsLower o.text) = "i don\x27t wish to answer") →
      veteranBranch "" options ≠ none) := by
  refine ⟨⟨by decide, by decide, by decide⟩,
    ⟨by decide, by decide, by decide⟩,
    ⟨by decide, by decide, by decide, by decide⟩, ?_, ?_⟩
  · intro options hl hopt
    have hex : ∃ o ∈ options,
        stratExactText (normCandidate "Prefer not to say") o = true := by
      obtain ⟨o, ho, htext⟩ := hopt
      refine ⟨o, ho, ?_⟩
      have hnorm : normCandidate "Prefer not to say" = "prefer not to say" := by
        decide
      rw [stratExactText, hnorm, htext]
      simp
    have hm := cascadeMatch_ne_none_of_exactText options _ hex
    refine ⟨?_, ?_, ?_⟩
    · show fillSelectSmart options genderDefaultCandidates ≠ none
      exact fillSelectSmart_ne_none_of_hit options _ "Prefer not to say"
        (by decide) (by decide) (by decide) hl hm
    · exact fillSelectSmart_ne_none_of_hit options _ "Prefer not to say"
        (by decide) (by decide) (by decide) hl hm
    · exact fillSelectSmart_ne_none_of_hit options _ "Prefer not to say"
        (by decide) (by decide) (by decide) hl hm
  · intro options hl hopt
    have hex : ∃ o ∈ options,
        stratExactText (normCandidate "I don\x27t wish to answer") o = true := by
      obtain ⟨o, ho, htext⟩ := hopt
      refine ⟨o, ho, ?_⟩
      have hnorm :
          normCandidate "I don\x27t wish to answer" = "i don\x27t wish to answer" := by
        decide
      rw [stratExactText, hnorm, htext]
      simp
    have hm := cascadeMatch_ne_none_of_exactText options _ hex
    exact fillSelectSmart_ne_none_of_hit options _ "I don\x27t wish to answer"
      (by decide) (by decide) (by decide) hl hm

/-- Witness for C4: a blank gender profile on a 2-option select with a
"Prefer not to say" option gets a selection. -/
theorem eeoDefaults_policy_witness :
    genderBranch "" [⟨"1", "Prefer not to say"⟩, ⟨"2", "Male"⟩] ≠ none :=
  (eeoDefaults_policy.2.2.2.1 [⟨"1", "Prefer not to say"⟩, ⟨"2", "Male"⟩]
    (by decide) ⟨⟨"1", "Prefer not to say"⟩, by decide, by decide⟩).1

/-- **C4, counterexample**: on a veteran select offering both a
decline-to-answer option and "I am not a protected veteran", a blank
profile makes the filler select the substantive "I am not a protected
veteran" — not an option from a "prefer not to answer" synonym set,
although one was available. -/
theorem eeo_veteran_counterexample :
    veteranBranch ""
        [⟨"0", "Select"⟩, ⟨"pnta", "I don\x27t wish to answer"⟩,
          ⟨"nv", "I am not a protected veteran"⟩] =
      some ⟨"nv", "I am not a protected veteran"⟩ ∧
    isPreferNotToAnswer "I am not a protected veteran" = false ∧
    isPreferNotToAnswer "I don\x27t wish to answer" = true :=
  ⟨by decide, by decide, by decide⟩

/-! ## Noisy-Text Record Extractor: `safeParseJsonFromText` (profile.js)

`JSON.parse` is modelled by a strict fuel-bounded recursive-descent parser
(the fuel bounds the recursion depth and is ample for any input of the
given length); `none` models a thrown `SyntaxError`.  Numbers are kept as
their lexemes. -/

inductive JsonVal where
  | jnull
  | jbool (b : Bool)
  | jnum (lexeme : String)
  | jstr (s : String)
  | jarr (elems : List JsonVal)
  | jobj (fields : List (String × JsonVal))

def jsonWs (c : Char) : Bool := c = ' ' || c = '\t' || c = '\n' || c = '\r'

def skipWs (l : List Char) : List Char := l.dropWhile jsonWs

def isHexDigit (c : Char) : Bool :=
  ('0' ≤ c && c ≤ '9') || ('a' ≤ c && c ≤ 'f') || ('A' ≤ c && c ≤ 'F')

def hexVal (c : Char) : Nat :=
  if '0' ≤ c && c ≤ '9' then c.toNat - '0'.toNat
  else if 'a' ≤ c && c ≤ 'f' then c.toNat - 'a'.toNat + 10
  else c.toNat - 'A'.toNat + 10

/-- Parse the body of a JSON string literal (after the opening quote).
Raw control characters are a syntax error, exactly as in `JSON.parse`. -/
def parseJsonString : List Char → Option (List Char × List Char)
  | [] => none
  | '"' :: rest => some ([], rest)
  | '\\' :: esc =>
    match esc with
    | [] => none
    | e :: rest =>
      let mapped : Option Char :=
        if e = '"' then some '"'
        else if e = '\\' then some '\\'
        else if e = '/' then some '/'
        else if e = 'b' then some (Char.ofNat 8)
        else if e = 'f' then some (Char.ofNat 12)
        else if e = 'n' then some '\n'
        else if e = 'r' then some '\r'
        else if e = 't' then some '\t'
        else none
      match mapped with
      | some c => (parseJsonString rest).map (fun (s, r) => (c :: s, r))
      | none =>
        if e = 'u' then
          match rest with
          | h1 :: h2 :: h3 :: h4 :: rest2 =>
            if isHexDigit h1 && isHexDigit h2 && isHexDigit h3 && isHexDigit h4 then
              let code := ((hexVal h1 * 16 + hexVal h2) * 16 + hexVal h3) * 16 + hexVal h4
              (parseJsonString rest2).map (fun (s, r) => (Char.ofNat code :: s, r))
            else none
          | _ => none
        else none
  | c :: rest =>
    if c.toNat < 32 then none
    else (parseJsonString rest).map (fun (s, r) => (c :: s, r))

def isDigitCh (c : Char) : Bool := '0' ≤ c && c ≤ '9'

/-- Parse a JSON number, returning its lexeme. -/
def parseJsonNumber (l : List Char) : Option (List Char × List Char) :=
  let (sign, l1) := match l with
    | '-' :: rest => (['-'], rest)
    | _ => ([], l)
  match l1 with
  | [] => none
  | c :: _ =>
    if ¬isDigitCh c then none
    else
      let intPart := if c = '0' then ['0'] else l1.takeWhile isDigitCh
      let l2 := l1.drop intPart.length
      let (fracPart, l3) :=
        match l2 with
        | '.' :: d :: rest =>
          if isDigitCh d then
            let ds := (d :: rest).takeWhile isDigitCh
            ('.' :: ds, (d :: rest).drop ds.length)
          else ([], l2)
        | _ => ([], l2)
      let (expPart, l4) :=
        match l3 with
        | e :: rest =>
          if e = 'e' || e = 'E' then
            let (es, rest2) := match rest with
              | s :: rest2 => if s = '+' || s = '-' then ([e, s], rest2) else ([e], rest)
              | [] => ([e], rest)
            match rest2 with
            | d :: _ =>
              if isDigitCh d then
                let ds := rest2.takeWhile isDigitCh
                (es ++ ds, rest2.drop ds.length)
              else ([], l3)
            | [] => ([], l3)
          else ([], l3)
        | [] => ([], l3)
      if fracPart = [] && l2 ≠ [] && l2.headD ' ' = '.' then none
      else some (sign ++ intPart ++ fracPart ++ expPart, l4)

/-- What the recursive-descent parser is currently reading: a value, the
members of an object, or the elements of an array. -/
inductive PMode where
  | value
  | members (first : Bool) (acc : List (String × JsonVal))
  | elems (first : Bool) (acc : List JsonVal)

def parseJ : Nat → PMode → List Char → Option (JsonVal × List Char)
  | 0, _, _ => none
  | fuel + 1, .value, l =>
    let l := skipWs l
    match l with
    | [] => none
    | '{' :: rest => parseJ fuel (.members true []) (skipWs rest)
    | '[' :: rest => parseJ fuel (.elems true []) (skipWs rest)
    | '"' :: rest =>
      (parseJsonString rest).map (fun (s, r) => (.jstr s.asString, r))
    | c :: _ =>
      if "true".toList.isPrefixOf l then some (.jbool true, l.drop 4)
      else if "false".toList.isPrefixOf l then some (.jbool false, l.drop 5)
      else if "null".toList.isPrefixOf l then some (.jnull, l.drop 4)
      else if c = '-' || isDigitCh c then
        (parseJsonNumber l).map (fun (n, r) => (.jnum n.asString, r))
      else none
  | fuel + 1, .members first acc, l =>
    (match l with
    | '}' :: rest => if first then some (.jobj acc.reverse, rest) else none
    | '"' :: rest =>
      match parseJsonString rest with
      | none => none
      | some (key, r1) =>
        match skipWs r1 with
        | ':' :: r2 =>
          match parseJ fuel .value r2 with
          | none => none
          | some (v, r3) =>
            match skipWs r3 with
            | ',' :: r4 =>
              parseJ fuel (.members false ((key.asString, v) :: acc)) (skipWs r4)
            | '}' :: r4 => some (.jobj (((key.asString, v) :: acc)).reverse, r4)
            | _ => none
        | _ => none
    | _ => none)
  | fuel + 1, .elems first acc, l =>
    (match l with
    | ']' :: rest => if first then some (.jarr acc.reverse, rest) else none
    | _ =>
      match parseJ fuel .value l with
      | none => none
      | some (v, r1) =>
        match skipWs r1 with
        | ',' :: r2 => parseJ fuel (.elems false (v :: acc)) (skipWs r2)
        | ']' :: r2 => some (.jarr ((v :: acc)).reverse, r2)
        | _ => none)


/-- `JSON.parse`: a whole input parses to one value with only whitespace
after it. -/
def jsParseJsonL (l : List Char) : Option JsonVal :=
  match parseJ (2 * l.length + 8) .value l with
  | some (v, rest) => if (skipWs rest).isEmpty then some v else none
  | none => none

/-! The repair cascade of `safeParseJsonFromText`, in source order. -/

/-- Repair 1: `candidate.replace(/,\s*([}\]])/g, '$1')`. -/
def stripTrailingCommas : Nat → List Char → List Char
  | 0, l => l
  | _, [] => []
  | fuel + 1, ',' :: rest =>
    match rest.dropWhile isWsChar with
    | c :: rest2 =>
      if c = '}' || c = ']' then c :: stripTrailingCommas fuel rest2
      else ',' :: stripTrailingCommas fuel rest
    | [] => ',' :: stripTrailingCommas fuel rest
  | fuel + 1, c :: rest => c :: stripTrailingCommas fuel rest

/-- Repair 2: strip control characters other than tab/newline/return. -/
def isStrippedControl (c : Char) : Bool :=
  c.toNat ≤ 8 || c.toNat = 11 || c.toNat = 12 ||
  (14 ≤ c.toNat && c.toNat ≤ 31) || c.toNat = 127

/-- Repair 3: `candidate.replace(/\\(?!["\\/bfnrtu])/g, '\\\\')`. -/
def escapeBadBackslashes : Nat → List Char → List Char
  | 0, l => l
  | _, [] => []
  | fuel + 1, '\\' :: rest =>
    let ok := match rest with
      | c :: _ =>
        c = '"' || c = '\\' || c = '/' || c = 'b' || c = 'f' || c = 'n' ||
        c = 'r' || c = 't' || c = 'u'
      | [] => false
    if ok then '\\' :: escapeBadBackslashes fuel rest
    else '\\' :: '\\' :: escapeBadBackslashes fuel rest
  | fuel + 1, c :: rest => c :: escapeBadBackslashes fuel rest

/-- Lazy scan for repair 4's `([^"]*?)(\r?\n)`: the characters before the
first newline (no quote allowed on the way), and the remainder after the
newline. -/
def scanToNewline : List Char → Option (List Char × List Char)
  | [] => none
  | '\n' :: rest => some ([], rest)
  | '\r' :: '\n' :: rest => some ([], rest)
  | c :: rest =>
    if c = '"' then none
    else (scanToNewline rest).map (fun (p, r) => (c :: p, r))

/-- Lazy scan for repair 4's `([^"]*?)"`: the characters up to the next
quote. -/
def scanToQuote : List Char → Option (List Char × List Char)
  | [] => none
  | '"' :: rest => some ([], rest)
  | c :: rest => (scanToQuote rest).map (fun (p, r) => (c :: p, r))

/-- Repair 4: `candidate.replace(/"([^"]*?)(\r?\n)([^"]*?)"/g, '"p1\np3"')`
— escape a raw newline between a pair of quotes. -/
def fixNewlinesInStrings : Nat → List Char → List Char
  | 0, l => l
  | _, [] => []
  | fuel + 1, '"' :: rest =>
    (match scanToNewline rest with
    | some (p1, afterNl) =>
      match scanToQuote afterNl with
      | some (p3, rest2) =>
        '"' :: (p1 ++ '\\' :: 'n' :: p3 ++ ['"']) ++ fixNewlinesInStrings fuel rest2
      | none => '"' :: fixNewlinesInStrings fuel rest
    | none => '"' :: fixNewlinesInStrings fuel rest)
  | fuel + 1, c :: rest => c :: fixNewlinesInStrings fuel rest

/-- Fallback repair of parse attempt 2: `candidate.replace(/\\(?!")/g, '')`. -/
def removeBackslashesNotBeforeQuote : Nat → List Char → List Char
  | 0, l => l
  | _, [] => []
  | fuel + 1, '\\' :: rest =>
    (match rest with
    | '"' :: _ => '\\' :: removeBackslashesNotBeforeQuote fuel rest
    | _ => removeBackslashesNotBeforeQuote fuel rest)
  | fuel + 1, c :: rest => c :: removeBackslashesNotBeforeQuote fuel rest

/-- Fallback repair of parse attempt 3: `candidate.replace(/\\/g, '\\\\')`. -/
def doubleAllBackslashes (l : List Char) : List Char :=
  l.flatMap (fun c => if c = '\\' then ['\\', '\\'] else [c])

/-- `}` depth scan: collect characters up to the brace that closes the
opening `{` (string contents are not treated specially, exactly like the
source's index loop). -/
def takeBalancedBraces : Nat → List Char → Option (List Char)
  | _, [] => none
  | depth, c :: rest =>
    if c = '{' then (takeBalancedBraces (depth + 1) rest).map (c :: ·)
    else if c = '}' then
      if depth = 1 then some [c]
      else (takeBalancedBraces (depth - 1) rest).map (c :: ·)
    else (takeBalancedBraces depth rest).map (c :: ·)

def smartQuoteFix (c : Char) : Char :=
  if c = Char.ofNat 0x201C || c = Char.ofNat 0x201D then '"'
  else if c = Char.ofNat 0x2018 || c = Char.ofNat 0x2019 then Char.ofNat 0x27
  else c

def jsEndsWithL (l : List Char) (suffix : String) : Bool :=
  suffix.toList.reverse.isPrefixOf l.reverse

/-- `safeParseJsonFromText(text)` (profile.js): trim, strip code fences,
normalise smart quotes, slice out the first balanced `{...}`, run the
repair cascade, then try `JSON.parse` on the candidate, on the candidate
with non-quote backslashes removed, and on the candidate with all
backslashes doubled, returning `null` when everything fails. -/
def safeParseJsonFromText (text : String) : Option JsonVal :=
  if text = "" then none
  else
    let l0 := jsTrimL text.toList
    let l1 := if "```json".toList.isPrefixOf l0 then l0.drop 7 else l0
    let l2 := if "```".toList.isPrefixOf l1 then l1.drop 3 else l1
    let l3 := if jsEndsWithL l2 "```" then l2.take (l2.length - 3) else l2
    let l4 := jsTrimL l3
    let clean := l4.map smartQuoteFix
    match clean.dropWhile (fun c => c ≠ '{') with
    | [] => none
    | b :: afterBrace =>
      match takeBalancedBraces 1 afterBrace with
      | none => none
      | some body =>
        let candidate0 := b :: body
        let c1 := stripTrailingCommas candidate0.length candidate0
        let c2 := c1.filter (fun c => !isStrippedControl c)
        let c3 := escapeBadBackslashes c2.length c2
        let candidate := fixNewlinesInStrings c3.length c3
        match jsParseJsonL candidate with
        | some v => some v
        | none =>
          match jsParseJsonL
              (removeBackslashesNotBeforeQuote candidate.length candidate) with
          | some v => some v
          | none => jsParseJsonL (doubleAllBackslashes candidate)

/-- **C8**: repair-cascade termination.  `safeParseJsonFromText` is a total
function into `Option`: every `JSON.parse` attempt sits inside a
`try/catch` (modelled by `Option`), so on any input it either returns a
parsed record or reports failure with `null` — no parse exception reaches
the caller.  The remaining conjuncts run the documented repairs on each
malformed-input family named by the claim: a trailing comma, smart quotes,
a raw control character, a stray backslash, a raw newline inside a string
literal, and unrecoverable garbage. -/
theorem safeParseJson_repair_cascade :
    (∀ text : String, safeParseJsonFromText text = none ∨
      ∃ v, safeParseJsonFromText text = some v) ∧
    safeParseJsonFromText "\x7b\"firstName\":\"Bo\",\x7d" =
      some (.jobj [("firstName", .jstr "Bo")]) ∧
    safeParseJsonFromText "\x7b“firstName”: “Bo”\x7d" =
      some (.jobj [("firstName", .jstr "Bo")]) ∧
    safeParseJsonFromText "\x7b\"a\":\u0001 1\x7d" = some (.jobj [("a", .jnum "1")]) ∧
    safeParseJsonFromText "\x7b\"p\":\"a\\qb\"\x7d" = some (.jobj [("p", .jstr "a\\qb")]) ∧
    safeParseJsonFromText "\x7b\"s\":\"x\ny\"\x7d" = some (.jobj [("s", .jstr "x\ny")]) ∧
    safeParseJsonFromText "no json at all \x7b\x7b\x7b" = none := by
  refine ⟨?_, rfl, rfl, rfl, rfl, rfl, rfl⟩
  intro text
  cases h : safeParseJsonFromText text with
  | none => exact Or.inl rfl
  | some v => exact Or.inr ⟨v, rfl⟩

/-! ## Resume extraction: `parseResumeWithAI` Strategy 1 (profile.js)

The master prompt sends the resume to the on-device model (an external
collaborator); the structured response is then parsed line by line into a
`ResumeResult`.  The model's response text is the input of this embedding. -/

structure WorkExp where
  company : String
  title : String
  location : String
  startDate : String
  endDate : String
  description : String
deriving DecidableEq, Repr

structure EduEntry where
  institution : String
  degree : String
  field : String
  graduationDate : String
  gpa : String
deriving DecidableEq, Repr

structure ProjEntry where
  name : String
  description : String
  technologies : String
  url : String
deriving DecidableEq, Repr

structure ResumeResult where
  firstName : String
  lastName : String
  email : String
  phone : String
  address : String
  city : String
  state : String
  postalCode : String
  country : String
  linkedin : String
  github : String
  portfolio : String
  twitter : String
  skills : String
  summary : String
  workExperience : List WorkExp
  education : List EduEntry
  projects : List ProjEntry
deriving DecidableEq, Repr

def emptyResume : ResumeResult :=
  ⟨"", "", "", "", "", "", "", "", "", "", "", "", "", "", "", [], [], []⟩

def emptyJob : WorkExp := ⟨"", "", "", "", "", ""⟩

def emptyEdu : EduEntry := ⟨"", "", "", "", ""⟩

def emptyProj : ProjEntry := ⟨"", "", "", ""⟩

/-- The line parser's state: the result so far, the current section label
and the entry being accumulated, exactly the loop variables of the
source. -/
structure ParseSt where
  res : ResumeResult
  currentSection : String
  currentJob : Option WorkExp
  currentEdu : Option EduEntry
  currentProj : Option ProjEntry
deriving Repr

/-- `.replace(/N\/A/i, '')` : drop the first case-insensitive `N/A`. -/
def removeFirstNA : List Char → List Char
  | [] => []
  | c :: rest =>
    if (c = 'n' || c = 'N') &&
        (match rest with
        | d :: e :: _ => d = '/' && (e = 'a' || e = 'A')
        | _ => false) then
      rest.drop 2
    else c :: removeFirstNA rest

/-- `.substring(n).trim().replace(/N\/A/i, '')` -/
def fieldAfter (line : String) (n : Nat) : String :=
  (removeFirstNA (jsTrimL (line.toList.drop n))).asString

/-- `.replace(/[^0-9\/]/g, '').substring(0, 7)` -/
def dateClean (s : String) : String :=
  ((s.toList.filter (fun c => ('0' ≤ c && c ≤ '9') || c = '/')).take 7).asString

def splitOnChar (sep : Char) (l : List Char) : List (List Char) :=
  l.foldr
    (fun c acc =>
      if c = sep then [] :: acc
      else
        match acc with
        | h :: t => (c :: h) :: t
        | [] => [[c]])
    [[]]

/-- The BASIC INFO field lines. -/
def basicLine (st : ParseSt) (t : String) : ParseSt :=
  if st.currentSection = "basic" then
    if jsStartsWith t "First Name:" then
      { st with res := { st.res with firstName := fieldAfter t 11 } }
    else if jsStartsWith t "Last Name:" then
      { st with res := { st.res with lastName := fieldAfter t 10 } }
    else if jsStartsWith t "Email:" then
      { st with res := { st.res with email := fieldAfter t 6 } }
    else if jsStartsWith t "Phone:" then
      { st with res := { st.res with phone := fieldAfter t 6 } }
    else if jsStartsWith t "City:" then
      { st with res := { st.res with city := fieldAfter t 5 } }
    else if jsStartsWith t "State:" then
      { st with res := { st.res with state := fieldAfter t 6 } }
    else if jsStartsWith t "LinkedIn:" then
      { st with res := { st.res with linkedin := fieldAfter t 9 } }
    else if jsStartsWith t "GitHub:" then
      { st with res := { st.res with github := fieldAfter t 7 } }
    else if jsStartsWith t "Portfolio:" then
      { st with res := { st.res with portfolio := fieldAfter t 10 } }
    else st
  else st

def skillsLine (st : ParseSt) (t : String) : ParseSt :=
  if st.currentSection = "skills" && t ≠ "" && !jsStartsWith t "SKILLS:" then
    { st with res := { st.res with skills := t }, currentSection := "" }
  else st

def summaryLine (st : ParseSt) (t : String) : ParseSt :=
  if st.currentSection = "summary" && t ≠ "" && !jsStartsWith t "SUMMARY:" then
    if st.res.summary = "" then { st with res := { st.res with summary := t } }
    else { st with res := { st.res with summary := st.res.summary ++ " " ++ t } }
  else st

/-- `JOB_END`: push the accumulated job only when it has a company and a
title. -/
def pushJob (res : ResumeResult) (job : WorkExp) : ResumeResult :=
  if job.company ≠ "" && job.title ≠ "" then
    { res with workExperience := res.workExperience ++ [job] }
  else res

def workLine (st : ParseSt) (t : String) : ParseSt :=
  if st.currentSection = "work" then
    if t = "JOB_START" then { st with currentJob := some emptyJob }
    else if t = "JOB_END" && st.currentJob.isSome then
      match st.currentJob with
      | some job => { st with res := pushJob st.res job, currentJob := none }
      | none => st
    else
      match st.currentJob with
      | none => st
      | some job =>
        if jsStartsWith t "Company:" then
          { st with currentJob := some { job with company := fieldAfter t 8 } }
        else if jsStartsWith t "Title:" then
          { st with currentJob := some { job with title := fieldAfter t 6 } }
        else if jsStartsWith t "Start:" then
          { st with currentJob := some { job with startDate := dateClean (fieldAfter t 6) } }
        else if jsStartsWith t "End:" then
          let date := jsTrim ((t.toList.drop 4).asString)
          let endD := if jsIncludes (jsLower date) "present" then "Present"
            else dateClean date
          { st with currentJob := some { job with endDate := endD } }
        else if jsStartsWith t "Description:" then
          { st with currentJob := some { job with description := fieldAfter t 12 } }
        else st
  else st

/-- `EDU_END`: push the accumulated entry only when it has an institution
and a degree. -/
def pushEdu (res : ResumeResult) (edu : EduEntry) : ResumeResult :=
  if edu.institution ≠ "" && edu.degree ≠ "" then
    { res with education := res.education ++ [edu] }
  else res

def eduLine (st : ParseSt) (t : String) : ParseSt :=
  if st.currentSection = "education" then
    if t = "EDU_START" then { st with currentEdu := some emptyEdu }
    else if t = "EDU_END" && st.currentEdu.isSome then
      match st.currentEdu with
      | some edu => { st with res := pushEdu st.res edu, currentEdu := none }
      | none => st
    else
      match st.currentEdu with
      | none => st
      | some edu =>
        if jsStartsWith t "Institution:" then
          { st with currentEdu := some { edu with institution := fieldAfter t 12 } }
        else if jsStartsWith t "Degree:" then
          { st with currentEdu := some { edu with degree := fieldAfter t 7 } }
        else if jsStartsWith t "Field:" then
          { st with currentEdu := some { edu with field := fieldAfter t 6 } }
        else if jsStartsWith t "Graduated:" then
          { st with currentEdu := some { edu with graduationDate := dateClean (fieldAfter t 10) } }
        else st
  else st

/-- `PROJ_END`: push the accumulated project only when it has a name. -/
def pushProj (res : ResumeResult) (proj : ProjEntry) : ResumeResult :=
  if proj.name ≠ "" then { res with projects := res.projects ++ [proj] }
  else res

def projLine (st : ParseSt) (t : String) : ParseSt :=
  if st.currentSection = "projects" then
    if t = "PROJ_START" then { st with currentProj := some emptyProj }
    else if t = "PROJ_END" && st.currentProj.isSome then
      match st.currentProj with
      | some proj => { st with res := pushProj st.res proj, currentProj := none }
      | none => st
    else
      match st.currentProj with
      | none => st
      | some proj =>
        if jsStartsWith t "Name:" then
          { st with currentProj := some { proj with name := fieldAfter t 5 } }
        else if jsStartsWith t "Description:" then
          { st with currentProj := some { proj with description := fieldAfter t 12 } }
        else if jsStartsWith t "Technologies:" then
          { st with currentProj := some { proj with technologies := fieldAfter t 13 } }
        else st
  else st

/-- One iteration of the response-parsing loop (`t` is the trimmed line). -/
def processTrimmed (st : ParseSt) (t : String) : ParseSt :=
  if jsStartsWith t "BASIC INFO:" then { st with currentSection := "basic" }
  else if jsStartsWith t "SKILLS:" then { st with currentSection := "skills" }
  else if jsStartsWith t "SUMMARY:" then { st with currentSection := "summary" }
  else if jsStartsWith t "WORK EXPERIENCE:" then { st with currentSection := "work" }
  else if jsStartsWith t "EDUCATION:" then { st with currentSection := "education" }
  else if jsStartsWith t "PROJECTS:" then { st with currentSection := "projects" }
  else
    projLine (eduLine (workLine (summaryLine (skillsLine (basicLine st t) t) t) t) t) t

def processLine (st : ParseSt) (line : String) : ParseSt :=
  processTrimmed st (jsTrim line)

/-- Parse the master prompt's structured response. -/
def parseMasterResponse (response : String) : ResumeResult :=
  (((splitOnChar '\n' response.toList).map List.asString).foldl processLine
    ⟨emptyResume, "", none, none, none⟩).res

/-- `isValidResumeStructure(data)` -/
def isValidResumeStructure (r : ResumeResult) : Bool :=
  (r.firstName ≠ "" || r.lastName ≠ "" || r.email ≠ "") ||
    decide (r.workExperience.length > 0)

/-- Strategy 1 of `parseResumeWithAI`, from the model's response onwards:
accept the parsed record only if it passes `isValidResumeStructure`,
otherwise throw (the caller falls back to manual entry). -/
def parseResumeWithAI (response : String) : Except String ResumeResult :=
  let result := parseMasterResponse response
  if isValidResumeStructure result then .ok result
  else .error "Could not extract enough information from resume. Please check the format and try again."

theorem basicLine_workExp (st : ParseSt) (t : String) :
    (basicLine st t).res.workExperience = st.res.workExperience := by
  unfold basicLine
  by_cases hs : st.currentSection = "basic"
  case neg => rw [if_neg hs]
  case pos =>
    rw [if_pos hs]
    by_cases h0 : jsStartsWith t "First Name:" = true
    · rw [if_pos h0]
    · rw [if_neg h0]
      by_cases h1 : jsStartsWith t "Last Name:" = true
      · rw [if_pos h1]
      · rw [if_neg h1]
        by_cases h2 : jsStartsWith t "Email:" = true
        · rw [if_pos h2]
        · rw [if_neg h2]
          by_cases h3 : jsStartsWith t "Phone:" = true
          · rw [if_pos h3]
          · rw [if_neg h3]
            by_cases h4 : jsStartsWith t "City:" = true
            · rw [if_pos h4]
            · rw [if_neg h4]
              by_cases h5 : jsStartsWith t "State:" = true
              · rw [if_pos h5]
              · rw [if_neg h5]
                by_cases h6 : jsStartsWith t "LinkedIn:" = true
                · rw [if_pos h6]
                · rw [if_neg h6]
                  by_cases h7 : jsStartsWith t "GitHub:" = true
                  · rw [if_pos h7]
                  · rw [if_neg h7]
                    by_cases h8 : jsStartsWith t "Portfolio:" = true
                    · rw [if_pos h8]
                    · rw [if_neg h8]

theorem skillsLine_workExp (st : ParseSt) (t : String) :
    (skillsLine st t).res.workExperience = st.res.workExperience := by
  unfold skillsLine
  by_cases hs : (st.currentSection = "skills" && t ≠ "" && !jsStartsWith t "SKILLS:") = true
  · rw [if_pos hs]
  · rw [if_neg hs]

theorem summaryLine_workExp (st : ParseSt) (t : String) :
    (summaryLine st t).res.workExperience = st.res.workExperience := by
  unfold summaryLine
  by_cases hs : (st.currentSection = "summary" && t ≠ "" && !jsStartsWith t "SUMMARY:") = true
  · rw [if_pos hs]
    by_cases h0 : st.res.summary = ""
    · rw [if_pos h0]
    · rw [if_neg h0]
  · rw [if_neg hs]

theorem pushEdu_workExp (res : ResumeResult) (edu : EduEntry) :
    (pushEdu res edu).workExperience = res.workExperience := by
  unfold pushEdu
  split <;> rfl

theorem pushProj_workExp (res : ResumeResult) (proj : ProjEntry) :
    (pushProj res proj).workExperience = res.workExperience := by
  unfold pushProj
  split <;> rfl

theorem eduLine_workExp (st : ParseSt) (t : String) :
    (eduLine st t).res.workExperience = st.res.workExperience := by
  unfold eduLine
  by_cases hs : st.currentSection = "education"
  case neg => rw [if_neg hs]
  case pos =>
    rw [if_pos hs]
    by_cases hA : t = "EDU_START"
    · rw [if_pos hA]
    · rw [if_neg hA]
      by_cases hB : (t = "EDU_END" && st.currentEdu.isSome) = true
      · rw [if_pos hB]
        rcases st.currentEdu with _ | edu
        · rfl
        · exact pushEdu_workExp st.res edu
      · rw [if_neg hB]
        rcases st.currentEdu with _ | edu
        · rfl
        · dsimp only
          by_cases h0 : jsStartsWith t "Institution:" = true
          · rw [if_pos h0]
          · rw [if_neg h0]
            by_cases h1 : jsStartsWith t "Degree:" = true
            · rw [if_pos h1]
            · rw [if_neg h1]
              by_cases h2 : jsStartsWith t "Field:" = true
              · rw [if_pos h2]
              · rw [if_neg h2]
                by_cases h3 : jsStartsWith t "Graduated:" = true
                · rw [if_pos h3]
                · rw [if_neg h3]

theorem projLine_workExp (st : ParseSt) (t : String) :
    (projLine st t).res.workExperience = st.res.workExperience := by
  unfold projLine
  by_cases hs : st.currentSection = "projects"
  case neg => rw [if_neg hs]
  case pos =>
    rw [if_pos hs]
    by_cases hA : t = "PROJ_START"
    · rw [if_pos hA]
    · rw [if_neg hA]
      by_cases hB : (t = "PROJ_END" && st.currentProj.isSome) = true
      · rw [if_pos hB]
        rcases st.currentProj with _ | proj
        · rfl
        · exact pushProj_workExp st.res proj
      · rw [if_neg hB]
        rcases st.currentProj with _ | proj
        · rfl
        · dsimp only
          by_cases h0 : jsStartsWith t "Name:" = true
          · rw [if_pos h0]
          · rw [if_neg h0]
            by_cases h1 : jsStartsWith t "Description:" = true
            · rw [if_pos h1]
            · rw [if_neg h1]
              by_cases h2 : jsStartsWith t "Technologies:" = true
              · rw [if_pos h2]
              · rw [if_neg h2]

/-- A work entry is only ever pushed with a non-empty company and title. -/
theorem pushJob_entries (res : ResumeResult) (job : WorkExp) :
    ∀ w ∈ (pushJob res job).workExperience,
      w ∈ res.workExperience ∨ (w.company ≠ "" ∧ w.title ≠ "") := by
  intro w hw
  unfold pushJob at hw
  split at hw
  · rename_i hcond
    simp only at hw
    rcases List.mem_append.mp hw with hin | hin
    · exact Or.inl hin
    · rw [List.mem_singleton] at hin
      subst hin
      simp only [Bool.and_eq_true, decide_eq_true_eq] at hcond
      exact Or.inr hcond
  · exact Or.inl hw

theorem workLine_entries (st : ParseSt) (t : String) :
    ∀ w ∈ (workLine st t).res.workExperience,
      w ∈ st.res.workExperience ∨ (w.company ≠ "" ∧ w.title ≠ "") := by
  intro w hw
  unfold workLine at hw
  by_cases hs : st.currentSection = "work"
  case neg =>
    rw [if_neg hs] at hw
    exact Or.inl hw
  case pos =>
    rw [if_pos hs] at hw
    by_cases hA : t = "JOB_START"
    · rw [if_pos hA] at hw
      exact Or.inl hw
    · rw [if_neg hA] at hw
      by_cases hB : (t = "JOB_END" && st.currentJob.isSome) = true
      · rw [if_pos hB] at hw
        rcases hj : st.currentJob with _ | job
        · rw [hj] at hw
          exact Or.inl hw
        · rw [hj] at hw
          exact pushJob_entries st.res job w hw
      · rw [if_neg hB] at hw
        rcases hj : st.currentJob with _ | job
        · rw [hj] at hw
          exact Or.inl hw
        · rw [hj] at hw
          dsimp only at hw
          by_cases e0 : jsStartsWith t "Company:" = true
          · rw [if_pos e0] at hw
            exact Or.inl hw
          · rw [if_neg e0] at hw
            by_cases e1 : jsStartsWith t "Title:" = true
            · rw [if_pos e1] at hw
              exact Or.inl hw
            · rw [if_neg e1] at hw
              by_cases e2 : jsStartsWith t "Start:" = true
              · rw [if_pos e2] at hw
                exact Or.inl hw
              · rw [if_neg e2] at hw
                by_cases e3 : jsStartsWith t "End:" = true
                · rw [if_pos e3] at hw
                  exact Or.inl hw
                · rw [if_neg e3] at hw
                  by_cases e4 : jsStartsWith t "Description:" = true
                  · rw [if_pos e4] at hw
                    exact Or.inl hw
                  · rw [if_neg e4] at hw
                    exact Or.inl hw

theorem processLine_entries (st : ParseSt) (line : String) :
    ∀ w ∈ (processLine st line).res.workExperience,
      w ∈ st.res.workExperience ∨ (w.company ≠ "" ∧ w.title ≠ "") := by
  intro w hw
  unfold processLine processTrimmed at hw
  by_cases g0 : jsStartsWith (jsTrim line) "BASIC INFO:" = true
  · rw [if_pos g0] at hw
    exact Or.inl hw
  · rw [if_neg g0] at hw
    by_cases g1 : jsStartsWith (jsTrim line) "SKILLS:" = true
    · rw [if_pos g1] at hw
      exact Or.inl hw
    · rw [if_neg g1] at hw
      by_cases g2 : jsStartsWith (jsTrim line) "SUMMARY:" = true
      · rw [if_pos g2] at hw
        exact Or.inl hw
      · rw [if_neg g2] at hw
        by_cases g3 : jsStartsWith (jsTrim line) "WORK EXPERIENCE:" = true
        · rw [if_pos g3] at hw
          exact Or.inl hw
        · rw [if_neg g3] at hw
          by_cases g4 : jsStartsWith (jsTrim line) "EDUCATION:" = true
          · rw [if_pos g4] at hw
            exact Or.inl hw
          · rw [if_neg g4] at hw
            by_cases g5 : jsStartsWith (jsTrim line) "PROJECTS:" = true
            · rw [if_pos g5] at hw
              exact Or.inl hw
            · rw [if_neg g5] at hw
              rw [projLine_workExp, eduLine_workExp] at hw
              have hstep := workLine_entries (summaryLine (skillsLine (basicLine st (jsTrim line))
                (jsTrim line)) (jsTrim line)) (jsTrim line) w hw
              rwa [summaryLine_workExp, skillsLine_workExp, basicLine_workExp] at hstep

theorem foldl_entries (lines : List String) :
    ∀ st : ParseSt,
      (∀ w ∈ st.res.workExperience, w.company ≠ "" ∧ w.title ≠ "") →
      ∀ w ∈ (lines.foldl processLine st).res.workExperience,
        w.company ≠ "" ∧ w.title ≠ "" := by
  induction lines with
  | nil => intro st h w hw; exact h w hw
  | cons line rest ih =>
    intro st h w hw
    refine ih (processLine st line) ?_ w hw
    intro w' hw'
    rcases processLine_entries st line w' hw' with hin | hgood
    · exact h w' hin
    · exact hgood

theorem parseMaster_entries (response : String) :
    ∀ w ∈ (parseMasterResponse response).workExperience,
      w.company ≠ "" ∧ w.title ≠ "" := by
  intro w hw
  exact foldl_entries _ _ (by intro w' hw'; simp [emptyResume] at hw') w hw

/-- **C9**: extraction acceptance.  A parsed resume is returned to the
caller only if it carries an identity signal (non-empty first name, last
name or email) or at least one work-experience entry — and every entry the
line parser ever pushes has a non-empty company *and* title, so a
length-positive array really contains a non-empty entry.  A record lacking
both signals makes `parseResumeWithAI` throw the documented error, sending
the caller to manual entry. -/
theorem resumeExtraction_acceptance :
    (∀ (response : String) (r : ResumeResult),
        parseResumeWithAI response = .ok r →
        ((r.firstName ≠ "" ∨ r.lastName ≠ "" ∨ r.email ≠ "") ∨
          ∃ w ∈ r.workExperience, w.company ≠ "" ∧ w.title ≠ "")) ∧
    (∀ response : String,
        isValidResumeStructure (parseMasterResponse response) = false →
        parseResumeWithAI response =
          .error "Could not extract enough information from resume. Please check the format and try again.") := by
  constructor
  · intro response r h
    unfold parseResumeWithAI at h
    by_cases hv : isValidResumeStructure (parseMasterResponse response) = true
    · rw [if_pos hv] at h
      cases h
      unfold isValidResumeStructure at hv
      simp only [Bool.or_eq_true, decide_eq_true_eq] at hv
      rcases hv with hid | hlen
      · exact Or.inl (by tauto)
      · right
        rcases hlist : (parseMasterResponse response).workExperience with _ | ⟨w, tail⟩
        · rw [hlist] at hlen
          simp at hlen
        · have hmem : w ∈ (parseMasterResponse response).workExperience := by
            rw [hlist]
            exact List.mem_cons_self w tail
          exact ⟨w, List.mem_cons_self w tail, parseMaster_entries response w hmem⟩
    · rw [if_neg hv] at h
      cases h
  · intro response hv
    unfold parseResumeWithAI
    rw [if_neg (by simp [hv])]

/-- Witness for C9: a response with one complete work entry and no
identity fields is accepted, and the accepted record indeed carries a
non-empty entry. -/
theorem resumeExtraction_acceptance_witness :
    ((parseMasterResponse "WORK EXPERIENCE:\nJOB_START\nCompany: Acme\nTitle: Engineer\nJOB_END").firstName ≠ "" ∨
      (parseMasterResponse "WORK EXPERIENCE:\nJOB_START\nCompany: Acme\nTitle: Engineer\nJOB_END").lastName ≠ "" ∨
      (parseMasterResponse "WORK EXPERIENCE:\nJOB_START\nCompany: Acme\nTitle: Engineer\nJOB_END").email ≠ "") ∨
    ∃ w ∈ (parseMasterResponse "WORK EXPERIENCE:\nJOB_START\nCompany: Acme\nTitle: Engineer\nJOB_END").workExperience,
      w.company ≠ "" ∧ w.title ≠ "" :=
  resumeExtraction_acceptance.1
    "WORK EXPERIENCE:\nJOB_START\nCompany: Acme\nTitle: Engineer\nJOB_END"
    (parseMasterResponse "WORK EXPERIENCE:\nJOB_START\nCompany: Acme\nTitle: Engineer\nJOB_END")
    (by rfl)

/-! ## Repeating-Section Engine: `fillMultipleWorkExperiences` (content script)

The work-experience section as the engine sees it: the currently rendered
eligible controls (`WField`, with `fid` the element identity), the text of
the clickable controls in the section, and `spawn k` — the controls the
host page renders after the `k`-th successful "Add" click.  The host page
is inert otherwise (writes stick), so `simpleFieldFill` runs with `id`
reactions. -/

/-- The skills exclusion of `getAllWorkFields` / `getAllEmptyWorkFields`. -/
def fieldSkill (f : WField) : Bool :=
  jsIncludes (jsLower f.label) "skill" || jsIncludes (jsLower f.id) "skill" ||
    jsIncludes (jsLower f.name) "skill"

/-- `getAllWorkFields()`: every visible, enabled, non-skill control. -/
def eligibleFields (fields : List WField) : List WField :=
  fields.filter (fun f => !fieldSkill f)

/-- `getAllEmptyWorkFields()`: eligible controls whose value is blank. -/
def emptyWorkFields (fields : List WField) : List WField :=
  fields.filter (fun f => !fieldSkill f && jsTrim f.value == "")

inductive AttrKey where
  | company
  | title
  | location
  | startDate
  | endDate
  | description
deriving DecidableEq, Repr

/-- The keyword table of `findBestFieldForData`. -/
def attrKeywords : AttrKey → List String
  | .company => ["company", "employer", "organization", "organisation", "business", "firm"]
  | .title => ["title", "position", "role", "job title", "job", "designation"]
  | .startDate => ["start", "from", "begin", "starting", "started", "join", "joined"]
  | .endDate => ["end", "to", "until", "finish", "finished", "ending", "ended",
      "leaving", "left", "present", "current"]
  | .location => ["location", "city", "place", "where", "based", "country", "state",
      "region", "locale", "area"]
  | .description => ["description", "responsibilities", "duties", "summary", "role",
      "what you did", "details"]

/-- The anti-keyword table of `findBestFieldForData`. -/
def attrAntiKeywords : AttrKey → List String
  | .company => ["title", "position", "role", "date", "year", "description", "location"]
  | .title => ["company", "employer", "date", "year", "description", "location"]
  | .startDate => ["end", "to", "until", "finish", "leaving", "left", "completion",
      "complete", "present", "current"]
  | .endDate => ["start", "from", "begin", "starting", "started", "join", "joined"]
  | .location => ["company", "title", "description", "responsibility", "duty", "skill"]
  | .description => ["company", "title", "location", "date"]

/-- The per-field score of `findBestFieldForData`: label matches beat
name/id matches beat placeholder matches, anti-keywords subtract 40, plus
the control-type bonuses and the start/end date adjustments. -/
def scoreField (key : AttrKey) (f : WField) : Int :=
  let label := jsLower f.label
  let fid := jsLower f.id
  let fname := jsLower f.name
  let placeholder := jsLower f.placeholder
  let fieldType := jsLower (if f.ftype ≠ "" then f.ftype else f.tag)
  let fullContext := label ++ " " ++ fid ++ " " ++ fname ++ " " ++ placeholder
  let pos := ((attrKeywords key).map (fun kw =>
    if jsIncludes fullContext kw then
      if jsIncludes label kw then (100 : Int)
      else if jsIncludes fid kw || jsIncludes fname kw then 50
      else if jsIncludes placeholder kw then 25
      else 0
    else 0)).sum
  let neg := ((attrAntiKeywords key).map (fun a =>
    if jsIncludes fullContext a then (40 : Int) else 0)).sum
  let typeBonus : Int :=
    (if key = .description && fieldType = "textarea" then 30 else 0) +
    (if (key = .startDate || key = .endDate) &&
        (jsIncludes fieldType "date" || jsIncludes fieldType "month") then 30 else 0)
  let startAdj : Int :=
    if key = .startDate then
      (if jsIncludes fullContext "start" || jsIncludes fullContext "from" ||
          jsIncludes fullContext "begin" then 20 else 0) -
      (if jsIncludes fullContext "end" || jsIncludes fullContext "to" ||
          jsIncludes fullContext "until" then 100 else 0)
    else 0
  let endAdj : Int :=
    if key = .endDate then
      (if jsIncludes fullContext "end" || jsIncludes fullContext "to" ||
          jsIncludes fullContext "until" then 20 else 0) -
      (if jsIncludes fullContext "start" || jsIncludes fullContext "from" ||
          jsIncludes fullContext "begin" then 100 else 0)
    else 0
  pos - neg + typeBonus + startAdj + endAdj

/-- The `score > bestScore` fold of both best-field searches. -/
def bestFold (score : WField → Int) (acc : Option WField × Int) :
    List WField → Option WField × Int
  | [] => acc
  | f :: rest =>
    let s := score f
    bestFold score (if s > acc.2 then (some f, s) else acc) rest

/-- `findBestFieldForData(fields, dataKey, _)`: the best strictly-positive
scorer, scanned with a running maximum seeded at -9999. -/
def findBestFieldForData (pool : List WField) (key : AttrKey) : Option WField :=
  let best := bestFold (scoreField key) (none, -9999) pool
  if best.2 > 0 then best.1 else none

/-- The per-entry data pairs `Object.entries(dataToFill)`, with the
`endDate || 'Present'` default. -/
def dataToFill (exp : WorkExp) : List (AttrKey × String) :=
  [(.company, exp.company), (.title, exp.title), (.location, exp.location),
   (.startDate, exp.startDate),
   (.endDate, if exp.endDate = "" then "Present" else exp.endDate),
   (.description, exp.description)]

inductive EngEv where
  | entryStart (i : Nat)
  | addAttempt (i : Nat)
  | addClicked (i : Nat)
  | abortAdd (i : Nat)
  | fillAttempt (i : Nat) (key : AttrKey) (fid : Nat)
deriving DecidableEq, Repr

def evIndex : EngEv → Nat
  | .entryStart i => i
  | .addAttempt i => i
  | .addClicked i => i
  | .abortAdd i => i
  | .fillAttempt i _ _ => i

def fillFids (evs : List EngEv) : List Nat :=
  evs.filterMap (fun e =>
    match e with
    | .fillAttempt _ _ fid => some fid
    | _ => none)

/-- Write one entry value into a matched control: selects go through
`fillSelectSmart` (with comma-split variants for locations), text controls
through `simpleFieldFill` on an inert page. -/
def writeWorkField (f : WField) (key : AttrKey) (value : String) : WField :=
  if f.tag = "SELECT" then
    let variants :=
      if key = .location then
        value :: (splitOnChar ',' value.toList).map (fun p => jsTrim p.asString)
      else [value]
    match fillSelectSmart f.options variants with
    | some m => { f with value := m.value }
    | none => f
  else (simpleFieldFill f value id id).2

/-- Replace the control with identity `f'.fid` by its written version. -/
def setField (fields : List WField) (f' : WField) : List WField :=
  fields.map (fun g => if g.fid = f'.fid then f' else g)

/-- The `for (const [key, value] of Object.entries(dataToFill))` loop: skip
blank values, find the best candidate in the pool, write it, splice it out
of the pool, count the assignment.  Returns (page fields, pool, events,
entryFilledCount). -/
def fillEntryLoop (i : Nat) :
    List (AttrKey × String) → List WField → List WField →
    List WField × List WField × List EngEv × Nat
  | [], pool, fields => (fields, pool, [], 0)
  | (key, value) :: rest, pool, fields =>
    if value = "" then fillEntryLoop i rest pool fields
    else
      match findBestFieldForData pool key with
      | none => fillEntryLoop i rest pool fields
      | some f =>
        let f' := writeWorkField f key value
        let fields' := setField fields f'
        let pool' := pool.eraseP (fun g => g.fid == f.fid)
        let r := fillEntryLoop i rest pool' fields'
        (r.1, r.2.1, .fillAttempt i key f.fid :: r.2.2.1, r.2.2.2 + 1)

/-- Fill one entry: snapshot the currently empty eligible fields as the
candidate pool and run the assignment loop. -/
def fillEntry (i : Nat) (exp : WorkExp) (fields : List WField) :
    List WField × List EngEv × Nat :=
  let r := fillEntryLoop i (dataToFill exp) (emptyWorkFields fields) fields
  (r.1, r.2.2.1, r.2.2.2)

/-- `text.includes('add') && (text.includes('experience') ||
text.includes('another') || text === 'add')` on the lowercased button
text. -/
def isAddButton (text : String) : Bool :=
  let t := jsLower text
  jsIncludes t "add" && (jsIncludes t "experience" || jsIncludes t "another" || t == "add")

def findAddButton (buttons : List String) : Option String :=
  buttons.find? isAddButton

/-- Click Add for entry `i` iff it is not the first, or it is the first and
the section started with no fields. -/
def shouldClickAdd (i : Nat) (needsFirstEntry : Bool) : Bool :=
  decide (0 < i) || (decide (i = 0) && needsFirstEntry)

structure EngResult where
  fields : List WField
  clicks : Nat
  events : List EngEv
  filled : Nat
deriving Repr

/-- The per-entry loop of `fillMultipleWorkExperiences`.  On a needed but
missing Add control the remaining entries are abandoned (`break`): the
state is returned as is. -/
def runEntries (buttons : List String) (spawn : Nat → List WField)
    (nfe : Bool) : Nat → List WorkExp → List WField → Nat → EngResult
  | _, [], fields, clicks => ⟨fields, clicks, [], 0⟩
  | i, exp :: rest, fields, clicks =>
    if shouldClickAdd i nfe then
      match findAddButton buttons with
      | none => ⟨fields, clicks, [.entryStart i, .addAttempt i, .abortAdd i], 0⟩
      | some _ =>
        let fields1 := fields ++ spawn clicks
        let e := fillEntry i exp fields1
        let r := runEntries buttons spawn nfe (i + 1) rest e.1 (clicks + 1)
        ⟨r.fields, r.clicks,
          .entryStart i :: .addAttempt i :: .addClicked i :: e.2.1 ++ r.events,
          e.2.2 + r.filled⟩
    else
      let e := fillEntry i exp fields
      let r := runEntries buttons spawn nfe (i + 1) rest e.1 clicks
      ⟨r.fields, r.clicks, .entryStart i :: e.2.1 ++ r.events, e.2.2 + r.filled⟩

/-- `fillMultipleWorkExperiences(experiences)`: decide whether entry #1
needs an Add click from the initial field census, then process the entries
in order; `filled` is the returned total. -/
def fillMultipleWorkExperiences (experiences : List WorkExp)
    (initialFields : List WField) (buttons : List String)
    (spawn : Nat → List WField) : EngResult :=
  runEntries buttons spawn (eligibleFields initialFields).isEmpty 0 experiences
    initialFields 0

/-! ### The generic per-entry filler `fillEntryFields` (content script)

The scoring loop over a prepared `dataMap`, with the `filledFields` set of
already-written controls.  `sf` abstracts `await simpleFieldFill(...)`'s
success on the live page. -/

structure DataMapEntry where
  value : String
  keywords : List String
  antiKeywords : List String
  fieldTypes : List String
  priority : Nat
  isDate : Bool
deriving Repr

/-- The "INTELLIGENT SCORING" of `fillEntryFields`: exact-label 50,
whole-word label 30, anywhere-in-context 10 per keyword; -25 per
anti-keyword; +15 type match; date-field bonuses/penalties; +5 required
(when already positive); +20 textarea for long text; -50 for values
exceeding `maxLength`. -/
def feScore (data : DataMapEntry) (f : WField) : Int :=
  let label := jsLower f.label
  let fieldName := jsLower (if f.name ≠ "" then f.name else f.id)
  let placeholder := jsLower f.placeholder
  let ariaLabel := jsLower f.ariaLabel
  let fieldType := jsLower (if f.ftype ≠ "" then f.ftype else jsLower f.tag)
  let context := label ++ " " ++ fieldName ++ " " ++ placeholder ++ " " ++ ariaLabel
  let pos := (data.keywords.map (fun kw =>
    let kwl := jsLower kw
    if label = kwl then (50 : Int)
    else if reTest [[.word kwl]] label then 30
    else if jsIncludes context kwl then 10
    else 0)).sum
  let neg := (data.antiKeywords.map (fun a =>
    if jsIncludes context (jsLower a) then (25 : Int) else 0)).sum
  let typeBonus : Int := if data.fieldTypes.contains fieldType then 15 else 0
  let dateAdj : Int :=
    if data.isDate then
      (if fieldType = "date" || fieldType = "month" then 25 else 0) +
      (if fieldType = "textarea" then -30 else 0)
    else
      (if fieldType = "date" || fieldType = "month" then -40 else 0)
  let s1 := pos - neg + typeBonus + dateAdj
  let s2 := if f.required && s1 > 0 then s1 + 5 else s1
  let s3 := if fieldType = "textarea" && data.value.length > 100 then s2 + 20 else s2
  if f.maxLength > 0 && (data.value.length : Int) > f.maxLength then s3 - 50 else s3

/-- The `for (const data of dataMap)` loop of `fillEntryFields`: skip
controls already in `filledFields`, pick the best positive scorer (running
maximum seeded at -999), fill it, and add it to `filledFields` only when
the write verified.  Returns (filledFields, filledCount). -/
def feLoop (sf : WField → String → Bool) :
    List DataMapEntry → List WField → List Nat → List Nat × Nat
  | [], _, filled => (filled, 0)
  | data :: rest, fields, filled =>
    let avail := fields.filter (fun f => !(decide (f.fid ∈ filled)))
    let best := bestFold (feScore data) (none, -999) avail
    match (if best.2 > 0 then best.1 else none) with
    | none => feLoop sf rest fields filled
    | some f =>
      if sf f data.value then
        let r := feLoop sf rest fields (f.fid :: filled)
        (r.1, r.2 + 1)
      else feLoop sf rest fields filled

theorem bestFold_mem (score : WField → Int) (fields : List WField) :
    ∀ (acc : Option WField × Int) (g : WField),
      (bestFold score acc fields).1 = some g → acc.1 = some g ∨ g ∈ fields := by
  induction fields with
  | nil =>
    intro acc g h
    exact Or.inl h
  | cons f rest ih =>
    intro acc g h
    rw [bestFold] at h
    rcases ih _ g h with hacc | hrest
    · by_cases hs : score f > acc.2
      · rw [if_pos hs] at hacc
        cases hacc
        exact Or.inr (List.mem_cons_self f rest)
      · rw [if_neg hs] at hacc
        exact Or.inl hacc
    · exact Or.inr (List.mem_cons_of_mem f hrest)

theorem findBest_mem {pool : List WField} {key : AttrKey} {f : WField}
    (h : findBestFieldForData pool key = some f) : f ∈ pool := by
  unfold findBestFieldForData at h
  by_cases hp : (bestFold (scoreField key) (none, -9999) pool).2 > 0
  · rw [if_pos hp] at h
    rcases bestFold_mem (scoreField key) pool _ f h with habs | hmem
    · cases habs
    · exact hmem
  · rw [if_neg hp] at h
    cases h

theorem eraseP_fid_not_mem (pool : List WField)
    (hnd : (pool.map WField.fid).Nodup) (f : WField) (hf : f ∈ pool) :
    f.fid ∉ (pool.eraseP (fun g => g.fid == f.fid)).map WField.fid := by
  induction pool with
  | nil => simp at hf
  | cons g rest ih =>
    rw [List.map_cons, List.nodup_cons] at hnd
    rw [List.eraseP_cons]
    by_cases hg : (g.fid == f.fid) = true
    · rw [hg, cond_true]
      rw [beq_iff_eq] at hg
      rw [← hg]
      exact hnd.1
    · rw [Bool.not_eq_true] at hg
      rw [hg, cond_false, List.map_cons, List.mem_cons]
      rintro (hEq | hmem)
      · rw [hEq] at hg
        simp at hg
      · have hfr : f ∈ rest := by
          rcases List.mem_cons.mp hf with hEq | hr
          · exfalso
            rw [hEq] at hg
            simp at hg
          · exact hr
        exact ih hnd.2 hfr hmem

theorem fillFids_cons_fill (i : Nat) (k : AttrKey) (fid : Nat) (evs : List EngEv) :
    fillFids (.fillAttempt i k fid :: evs) = fid :: fillFids evs := rfl

theorem fillEntryLoop_nodup (data : List (AttrKey × String)) :
    ∀ (i : Nat) (pool fields : List WField),
      (pool.map WField.fid).Nodup →
      (fillFids (fillEntryLoop i data pool fields).2.2.1).Nodup ∧
      ∀ x ∈ fillFids (fillEntryLoop i data pool fields).2.2.1,
        x ∈ pool.map WField.fid := by
  induction data with
  | nil =>
    intro i pool fields _
    exact ⟨List.nodup_nil, by intro x hx; simp [fillEntryLoop, fillFids] at hx⟩
  | cons kv rest ih =>
    intro i pool fields h
    obtain ⟨key, value⟩ := kv
    simp only [fillEntryLoop]
    by_cases hv : value = ""
    · rw [if_pos hv]
      exact ih i pool fields h
    · rw [if_neg hv]
      rcases hbest : findBestFieldForData pool key with _ | f
      · exact ih i pool fields h
      · have hmem : f ∈ pool := findBest_mem hbest
        have hsub :
            ((pool.eraseP (fun g => g.fid == f.fid)).map WField.fid).Nodup :=
          ((List.eraseP_sublist pool).map WField.fid).nodup h
        have hnot := eraseP_fid_not_mem pool h f hmem
        obtain ⟨ihn, ihm⟩ := ih i (pool.eraseP (fun g => g.fid == f.fid))
          (setField fields (writeWorkField f key value)) hsub
        constructor
        · rw [fillFids_cons_fill, List.nodup_cons]
          exact ⟨fun contra => hnot (ihm _ contra), ihn⟩
        · intro x hx
          rw [fillFids_cons_fill, List.mem_cons] at hx
          rcases hx with hEq | hx
          · rw [hEq]
            exact List.mem_map_of_mem WField.fid hmem
          · exact ((List.eraseP_sublist pool).map WField.fid).mem (ihm x hx)

theorem feLoop_nodup (sf : WField → String → Bool) (dataMap : List DataMapEntry) :
    ∀ (fields : List WField) (filled : List Nat),
      filled.Nodup → ((feLoop sf dataMap fields filled).1).Nodup := by
  induction dataMap with
  | nil =>
    intro fields filled h
    exact h
  | cons data rest ih =>
    intro fields filled h
    simp only [feLoop]
    rcases hbest :
        (if (bestFold (feScore data)
              (none, -999) (fields.filter (fun f => !(decide (f.fid ∈ filled))))).2 > 0 then
          (bestFold (feScore data)
            (none, -999) (fields.filter (fun f => !(decide (f.fid ∈ filled))))).1
        else none) with _ | f
    · exact ih fields filled h
    · have hmem : f ∈ fields.filter (fun f => !(decide (f.fid ∈ filled))) := by
        by_cases hp : (bestFold (feScore data)
            (none, -999) (fields.filter (fun f => !(decide (f.fid ∈ filled))))).2 > 0
        · rw [if_pos hp] at hbest
          rcases bestFold_mem (feScore data) _ _ f hbest with habs | hm
          · cases habs
          · exact hm
        · rw [if_neg hp] at hbest
          cases hbest
      have hnotin : f.fid ∉ filled := by
        have hfil := List.of_mem_filter hmem
        simpa using hfil
      dsimp only
      by_cases hs : sf f data.value = true
      · rw [if_pos hs]
        exact ih fields (f.fid :: filled) (List.nodup_cons.mpr ⟨hnotin, h⟩)
      · rw [if_neg hs]
        exact ih fields filled h

/-- **C5**: no double-assignment within one repeating entry.  In
`fillMultipleWorkExperiences`' entry loop, once a control is assigned to
one attribute it is spliced out of the candidate pool, so the assigned
controls of one entry are pairwise distinct (and all drawn from the
entry's candidate pool); in the generic `fillEntryFields` loop, a control
is added to `filledFields` on a verified write and skipped thereafter, so
no two data attributes are ever written into the same control, for every
write-success pattern. -/
theorem no_double_assignment :
    (∀ (i : Nat) (data : List (AttrKey × String)) (pool fields : List WField),
        (pool.map WField.fid).Nodup →
        (fillFids (fillEntryLoop i data pool fields).2.2.1).Nodup ∧
        ∀ x ∈ fillFids (fillEntryLoop i data pool fields).2.2.1,
          x ∈ pool.map WField.fid) ∧
    (∀ (sf : WField → String → Bool) (dataMap : List DataMapEntry)
        (fields : List WField) (filled : List Nat),
        filled.Nodup → ((feLoop sf dataMap fields filled).1).Nodup) :=
  ⟨fun i data pool fields h => fillEntryLoop_nodup data i pool fields h,
   fun sf dataMap fields filled h => feLoop_nodup sf dataMap fields filled h⟩

/-- A sample company-labelled text control. -/
def wfCompany : WField :=
  ⟨1, "INPUT", "text", "", "", "company", "", "", false, -1, "", []⟩

/-- A sample job-title-labelled text control. -/
def wfTitle : WField :=
  ⟨2, "INPUT", "text", "", "", "job title", "", "", false, -1, "", []⟩

/-- Witness for C5: a two-control entry gets its company and title written
into two distinct controls. -/
theorem no_double_assignment_witness :
    (fillFids (fillEntryLoop 0 [(.company, "Acme"), (.title, "Dev")]
        [wfCompany, wfTitle] [wfCompany, wfTitle]).2.2.1).Nodup ∧
    ∀ x ∈ fillFids (fillEntryLoop 0 [(.company, "Acme"), (.title, "Dev")]
        [wfCompany, wfTitle] [wfCompany, wfTitle]).2.2.1,
      x ∈ [wfCompany, wfTitle].map WField.fid :=
  no_double_assignment.1 0 [(.company, "Acme"), (.title, "Dev")]
    [wfCompany, wfTitle] [wfCompany, wfTitle] (by decide)

theorem fillEntryLoop_events_shape (data : List (AttrKey × String)) :
    ∀ (i : Nat) (pool fields : List WField) (e : EngEv),
      e ∈ (fillEntryLoop i data pool fields).2.2.1 →
      ∃ k fid, e = .fillAttempt i k fid := by
  induction data with
  | nil =>
    intro i pool fields e he
    simp [fillEntryLoop] at he
  | cons kv rest ih =>
    intro i pool fields e he
    obtain ⟨key, value⟩ := kv
    simp only [fillEntryLoop] at he
    by_cases hv : value = ""
    · rw [if_pos hv] at he
      exact ih i pool fields e he
    · rw [if_neg hv] at he
      rcases hbest : findBestFieldForData pool key with _ | f
      · rw [hbest] at he
        exact ih i pool fields e he
      · rw [hbest] at he
        dsimp only at he
        rw [List.mem_cons] at he
        rcases he with rfl | he
        · exact ⟨key, f.fid, rfl⟩
        · exact ih i _ _ e he

theorem fillEntry_events_shape (i : Nat) (exp : WorkExp) (fields : List WField)
    (e : EngEv) (he : e ∈ (fillEntry i exp fields).2.1) :
    ∃ k fid, e = .fillAttempt i k fid :=
  fillEntryLoop_events_shape (dataToFill exp) i (emptyWorkFields fields) fields e he

theorem runEntries_events_ge (buttons : List String) (spawn : Nat → List WField)
    (nfe : Bool) : ∀ (exps : List WorkExp) (i : Nat) (fields : List WField)
      (clicks : Nat) (e : EngEv),
      e ∈ (runEntries buttons spawn nfe i exps fields clicks).events →
      i ≤ evIndex e := by
  intro exps
  induction exps with
  | nil =>
    intro i fields clicks e he
    simp [runEntries] at he
  | cons exp rest ih =>
    intro i fields clicks e he
    simp only [runEntries] at he
    by_cases hc : shouldClickAdd i nfe = true
    · rw [if_pos hc] at he
      rcases hb : findAddButton buttons with _ | b
      · rw [hb] at he
        dsimp only at he
        simp only [List.mem_cons, List.not_mem_nil, or_false] at he
        rcases he with rfl | rfl | rfl <;> simp [evIndex]
      · rw [hb] at he
        dsimp only at he
        simp only [List.mem_cons, List.mem_append, or_assoc] at he
        rcases he with rfl | rfl | rfl | hE | hR
        · simp [evIndex]
        · simp [evIndex]
        · simp [evIndex]
        · obtain ⟨k, fid, rfl⟩ := fillEntry_events_shape i exp _ e hE
          simp [evIndex]
        · exact Nat.le_of_succ_le (ih (i + 1) _ (clicks + 1) e hR)
    · rw [if_neg hc] at he
      dsimp only at he
      simp only [List.mem_cons, List.mem_append, or_assoc] at he
      rcases he with rfl | hE | hR
      · simp [evIndex]
      · obtain ⟨k, fid, rfl⟩ := fillEntry_events_shape i exp _ e hE
        simp [evIndex]
      · exact Nat.le_of_succ_le (ih (i + 1) _ clicks e hR)

theorem runEntries_addAttempt_iff (buttons : List String)
    (spawn : Nat → List WField) (nfe : Bool) :
    ∀ (exps : List WorkExp) (i0 : Nat) (fields : List WField) (clicks : Nat)
      (j : Nat),
      (EngEv.addAttempt j ∈ (runEntries buttons spawn nfe i0 exps fields clicks).events) ↔
      (EngEv.entryStart j ∈ (runEntries buttons spawn nfe i0 exps fields clicks).events ∧
        shouldClickAdd j nfe = true) := by
  intro exps
  induction exps with
  | nil =>
    intro i0 fields clicks j
    simp [runEntries]
  | cons exp rest ih =>
    intro i0 fields clicks j
    simp only [runEntries]
    by_cases hc : shouldClickAdd i0 nfe = true
    · rw [if_pos hc]
      rcases hb : findAddButton buttons with _ | b
      · dsimp only
        simp only [List.mem_cons, List.not_mem_nil, or_false]
        constructor
        · rintro (h | h | h)
          · exact EngEv.noConfusion h
          · injection h with hj
            subst hj
            exact ⟨Or.inl rfl, hc⟩
          · exact EngEv.noConfusion h
        · rintro ⟨h | h | h, hs⟩
          · injection h with hj
            subst hj
            exact Or.inr (Or.inl rfl)
          · exact EngEv.noConfusion h
          · exact EngEv.noConfusion h
      · dsimp only
        simp only [List.mem_cons, List.mem_append, or_assoc]
        constructor
        · rintro (h | h | h | hE | hR)
          · exact EngEv.noConfusion h
          · injection h with hj
            subst hj
            exact ⟨Or.inl rfl, hc⟩
          · exact EngEv.noConfusion h
          · obtain ⟨k, fid, hEq⟩ := fillEntry_events_shape i0 exp _ _ hE
            exact EngEv.noConfusion hEq
          · obtain ⟨hES, hs⟩ := (ih (i0 + 1) _ (clicks + 1) j).mp hR
            exact ⟨Or.inr (Or.inr (Or.inr (Or.inr hES))), hs⟩
        · rintro ⟨h | h | h | hE | hR, hs⟩
          · injection h with hj
            subst hj
            exact Or.inr (Or.inl rfl)
          · exact EngEv.noConfusion h
          · exact EngEv.noConfusion h
          · obtain ⟨k, fid, hEq⟩ := fillEntry_events_shape i0 exp _ _ hE
            exact EngEv.noConfusion hEq
          · exact Or.inr (Or.inr (Or.inr (Or.inr ((ih (i0 + 1) _ (clicks + 1) j).mpr ⟨hR, hs⟩))))
    · rw [if_neg hc]
      dsimp only
      simp only [List.mem_cons, List.mem_append, or_assoc]
      constructor
      · rintro (h | hE | hR)
        · exact EngEv.noConfusion h
        · obtain ⟨k, fid, hEq⟩ := fillEntry_events_shape i0 exp _ _ hE
          exact EngEv.noConfusion hEq
        · obtain ⟨hES, hs⟩ := (ih (i0 + 1) _ clicks j).mp hR
          exact ⟨Or.inr (Or.inr hES), hs⟩
      · rintro ⟨h | hE | hR, hs⟩
        · injection h with hj
          subst hj
          exact absurd hs hc
        · obtain ⟨k, fid, hEq⟩ := fillEntry_events_shape i0 exp _ _ hE
          exact EngEv.noConfusion hEq
        · exact Or.inr (Or.inr ((ih (i0 + 1) _ clicks j).mpr ⟨hR, hs⟩))

/-- `shouldClickAdd` in the claim's phrasing. -/
theorem shouldClickAdd_iff (j : Nat) (nfe : Bool) :
    shouldClickAdd j nfe = true ↔ (0 < j ∨ nfe = true) := by
  unfold shouldClickAdd
  rcases j with _ | j <;> cases nfe <;> simp

/-- **C6**: first-entry Add policy.  In a full `fillMultipleWorkExperiences`
run, an Add click is attempted for entry `i` exactly when entry `i` is
processed at all and either `i > 0` (every subsequent entry always clicks
Add) or the section had no eligible fields before processing began (so
even entry #1 clicks Add); an entry-#1 with pre-existing fields does not
click Add. -/
theorem firstEntry_add_policy :
    ∀ (experiences : List WorkExp) (initialFields : List WField)
      (buttons : List String) (spawn : Nat → List WField) (i : Nat),
      (EngEv.addAttempt i ∈
        (fillMultipleWorkExperiences experiences initialFields buttons spawn).events) ↔
      (EngEv.entryStart i ∈
          (fillMultipleWorkExperiences experiences initialFields buttons spawn).events ∧
        (0 < i ∨ (eligibleFields initialFields).isEmpty = true)) := by
  intro experiences initialFields buttons spawn i
  unfold fillMultipleWorkExperiences
  rw [runEntries_addAttempt_iff, shouldClickAdd_iff]

/-- Witness for C6: with one pre-existing field, entry #0 fills without an
Add click and entry #1 attempts one. -/
theorem firstEntry_add_policy_witness :
    EngEv.addAttempt 1 ∈
      (fillMultipleWorkExperiences
        [⟨"Acme", "Dev", "", "", "", ""⟩, ⟨"Beta", "QA", "", "", "", ""⟩]
        [wfCompany] ["Add another"] (fun _ => [wfTitle])).events :=
  (firstEntry_add_policy
    [⟨"Acme", "Dev", "", "", "", ""⟩, ⟨"Beta", "QA", "", "", "", ""⟩]
    [wfCompany] ["Add another"] (fun _ => [wfTitle]) 1).mpr
    ⟨by decide, Or.inl (by decide)⟩

theorem fillEntryLoop_count (data : List (AttrKey × String)) :
    ∀ (i : Nat) (pool fields : List WField),
      (fillEntryLoop i data pool fields).2.2.2 =
        (fillFids (fillEntryLoop i data pool fields).2.2.1).length := by
  induction data with
  | nil =>
    intro i pool fields
    rfl
  | cons kv rest ih =>
    intro i pool fields
    obtain ⟨key, value⟩ := kv
    simp only [fillEntryLoop]
    by_cases hv : value = ""
    · rw [if_pos hv]
      exact ih i pool fields
    · rw [if_neg hv]
      rcases hbest : findBestFieldForData pool key with _ | f
      · exact ih i pool fields
      · dsimp only
        rw [fillFids_cons_fill, List.length_cons, ih]

theorem runEntries_count (buttons : List String) (spawn : Nat → List WField)
    (nfe : Bool) : ∀ (exps : List WorkExp) (i0 : Nat) (fields : List WField)
      (clicks : Nat),
      (runEntries buttons spawn nfe i0 exps fields clicks).filled =
        (fillFids (runEntries buttons spawn nfe i0 exps fields clicks).events).length := by
  intro exps
  induction exps with
  | nil =>
    intro i0 fields clicks
    rfl
  | cons exp rest ih =>
    intro i0 fields clicks
    simp only [runEntries]
    by_cases hc : shouldClickAdd i0 nfe = true
    · rw [if_pos hc]
      rcases hb : findAddButton buttons with _ | b
      · rfl
      · dsimp only
        simp only [fillFids, List.filterMap_cons, List.filterMap_append,
          List.length_append]
        rw [ih (i0 + 1) _ (clicks + 1)]
        simp only [fillFids]
        rw [fillEntry, fillEntryLoop_count]
        simp [fillFids]
    · rw [if_neg hc]
      dsimp only
      simp only [fillFids, List.filterMap_cons, List.filterMap_append,
        List.length_append]
      rw [ih (i0 + 1) _ clicks]
      simp only [fillFids]
      rw [fillEntry, fillEntryLoop_count]
      simp [fillFids]

theorem runEntries_abort_bounds (buttons : List String)
    (spawn : Nat → List WField) (nfe : Bool) :
    ∀ (exps : List WorkExp) (i0 : Nat) (fields : List WField) (clicks : Nat)
      (i : Nat),
      EngEv.abortAdd i ∈ (runEntries buttons spawn nfe i0 exps fields clicks).events →
      (∀ j, EngEv.entryStart j ∈
          (runEntries buttons spawn nfe i0 exps fields clicks).events → j ≤ i) ∧
      (∀ j k fid, EngEv.fillAttempt j k fid ∈
          (runEntries buttons spawn nfe i0 exps fields clicks).events → j < i) := by
  intro exps
  induction exps with
  | nil =>
    intro i0 fields clicks i habort
    simp [runEntries] at habort
  | cons exp rest ih =>
    intro i0 fields clicks i habort
    simp only [runEntries] at habort ⊢
    by_cases hc : shouldClickAdd i0 nfe = true
    · rw [if_pos hc] at habort ⊢
      rcases hb : findAddButton buttons with _ | b
      · rw [hb] at habort
        dsimp only at habort ⊢
        simp only [List.mem_cons, List.not_mem_nil, or_false] at habort
        have hii0 : i = i0 := by
          rcases habort with h | h | h
          · exact EngEv.noConfusion h
          · exact EngEv.noConfusion h
          · injection h with hj
        subst hii0
        constructor
        · intro j hj
          simp only [List.mem_cons, List.not_mem_nil, or_false] at hj
          rcases hj with h | h | h
          · injection h with hjj
            exact Nat.le_of_eq hjj
          · exact EngEv.noConfusion h
          · exact EngEv.noConfusion h
        · intro j k fid hj
          simp only [List.mem_cons, List.not_mem_nil, or_false] at hj
          rcases hj with h | h | h <;> exact EngEv.noConfusion h
      · rw [hb] at habort
        dsimp only at habort ⊢
        simp only [List.mem_cons, List.mem_append, or_assoc] at habort
        have habR : EngEv.abortAdd i ∈
            (runEntries buttons spawn nfe (i0 + 1) rest
              (fillEntry i0 exp (fields ++ spawn clicks)).1 (clicks + 1)).events := by
          rcases habort with h | h | h | hE | hR
          · exact EngEv.noConfusion h
          · exact EngEv.noConfusion h
          · exact EngEv.noConfusion h
          · obtain ⟨k, fid, hEq⟩ := fillEntry_events_shape i0 exp _ _ hE
            exact EngEv.noConfusion hEq
          · exact hR
        have hige : i0 + 1 ≤ i := by
          have := runEntries_events_ge buttons spawn nfe rest (i0 + 1) _ (clicks + 1)
            (EngEv.abortAdd i) habR
          simpa [evIndex] using this
        obtain ⟨B1, B2⟩ := ih (i0 + 1) _ (clicks + 1) i habR
        constructor
        · intro j hj
          simp only [List.mem_cons, List.mem_append, or_assoc] at hj
          rcases hj with h | h | h | hE | hR
          · injection h with hjj
            omega
          · exact EngEv.noConfusion h
          · exact EngEv.noConfusion h
          · obtain ⟨k, fid, hEq⟩ := fillEntry_events_shape i0 exp _ _ hE
            exact EngEv.noConfusion hEq
          · exact B1 j hR
        · intro j k fid hj
          simp only [List.mem_cons, List.mem_append, or_assoc] at hj
          rcases hj with h | h | h | hE | hR
          · exact EngEv.noConfusion h
          · exact EngEv.noConfusion h
          · exact EngEv.noConfusion h
          · obtain ⟨k2, fid2, hEq⟩ := fillEntry_events_shape i0 exp _ _ hE
            injection hEq with hj2
            omega
          · exact B2 j k fid hR
    · rw [if_neg hc] at habort ⊢
      dsimp only at habort ⊢
      simp only [List.mem_cons, List.mem_append, or_assoc] at habort
      have habR : EngEv.abortAdd i ∈
          (runEntries buttons spawn nfe (i0 + 1) rest
            (fillEntry i0 exp fields).1 clicks).events := by
        rcases habort with h | hE | hR
        · exact EngEv.noConfusion h
        · obtain ⟨k, fid, hEq⟩ := fillEntry_events_shape i0 exp _ _ hE
          exact EngEv.noConfusion hEq
        · exact hR
      have hige : i0 + 1 ≤ i := by
        have := runEntries_events_ge buttons spawn nfe rest (i0 + 1) _ clicks
          (EngEv.abortAdd i) habR
        simpa [evIndex] using this
      obtain ⟨B1, B2⟩ := ih (i0 + 1) _ clicks i habR
      constructor
      · intro j hj
        simp only [List.mem_cons, List.mem_append, or_assoc] at hj
        rcases hj with h | hE | hR
        · injection h with hjj
          omega
        · obtain ⟨k, fid, hEq⟩ := fillEntry_events_shape i0 exp _ _ hE
          exact EngEv.noConfusion hEq
        · exact B1 j hR
      · intro j k fid hj
        simp only [List.mem_cons, List.mem_append, or_assoc] at hj
        rcases hj with h | hE | hR
        · exact EngEv.noConfusion h
        · obtain ⟨k2, fid2, hEq⟩ := fillEntry_events_shape i0 exp _ _ hE
          injection hEq with hj2
          omega
        · exact B2 j k fid hR

/-- **C7**: Add-control-not-found handling.  When an Add click is needed
and no button in the section matches the add synonyms, the engine returns
immediately: the page state and click count are untouched, only the
entry-start/attempt/abort events are emitted, zero further fields are
counted, and the remaining entries are never processed.  Globally, an
abort at entry `i` bounds every processed entry by `i` and every field
assignment strictly below `i`, and the count the engine returns is exactly
the number of field-assignment events, so the fields already filled for
earlier entries are preserved and reported. -/
theorem addControl_not_found :
    (∀ (buttons : List String) (spawn : Nat → List WField) (nfe : Bool)
        (i : Nat) (exp : WorkExp) (rest : List WorkExp) (fields : List WField)
        (clicks : Nat),
        shouldClickAdd i nfe = true → findAddButton buttons = none →
        runEntries buttons spawn nfe i (exp :: rest) fields clicks =
          ⟨fields, clicks, [.entryStart i, .addAttempt i, .abortAdd i], 0⟩) ∧
    (∀ (experiences : List WorkExp) (initialFields : List WField)
        (buttons : List String) (spawn : Nat → List WField) (i : Nat),
        EngEv.abortAdd i ∈
          (fillMultipleWorkExperiences experiences initialFields buttons spawn).events →
        (∀ j, EngEv.entryStart j ∈
            (fillMultipleWorkExperiences experiences initialFields buttons spawn).events →
            j ≤ i) ∧
        (∀ j k fid, EngEv.fillAttempt j k fid ∈
            (fillMultipleWorkExperiences experiences initialFields buttons spawn).events →
            j < i)) ∧
    (∀ (experiences : List WorkExp) (initialFields : List WField)
        (buttons : List String) (spawn : Nat → List WField),
        (fillMultipleWorkExperiences experiences initialFields buttons spawn).filled =
          (fillFids
            (fillMultipleWorkExperiences experiences initialFields buttons spawn).events).length) := by
  refine ⟨?_, ?_, ?_⟩
  · intro buttons spawn nfe i exp rest fields clicks hclick hbtn
    simp only [runEntries]
    rw [if_pos hclick, hbtn]
  · intro experiences initialFields buttons spawn i habort
    exact runEntries_abort_bounds buttons spawn _ experiences 0 initialFields 0 i habort
  · intro experiences initialFields buttons spawn
    exact runEntries_count buttons spawn _ experiences 0 initialFields 0

/-- Witness for C7: a section whose only button is not an Add control
aborts immediately, preserving the (empty) state and reporting zero. -/
theorem addControl_not_found_witness :
    runEntries ["Submit"] (fun _ => []) true 0 [⟨"Acme", "Dev", "", "", "", ""⟩]
        [] 0 =
      ⟨[], 0, [.entryStart 0, .addAttempt 0, .abortAdd 0], 0⟩ :=
  addControl_not_found.1 ["Submit"] (fun _ => []) true 0
    ⟨"Acme", "Dev", "", "", "", ""⟩ [] [] 0 (by decide) (by decide)

end Jobify
